import Mathlib

/-!
Verification of the LinkedIn job-email filter (src/email/linkedin-job-filter.py)
against its natural-language specification.

The script is embedded shallowly: strings are `List Char`, the Python `re`
searches used by the script are translated into executable deterministic
matchers (the patterns in this script have disjoint follow sets, so greedy
matching without backtracking coincides with Python's leftmost/greedy
semantics on them), subprocess/network calls are modelled as explicit
parameters, and the one fallible pure computation (`int()` inside
`extract_compensation`) is modelled with `Except`.
-/

namespace JobFilter

abbrev Chars := List Char

/-- Shorthand for the character list of a string literal. -/
def strC (s : String) : Chars := s.data

/-- ASCII lowercasing of one character, the model of Python `str.lower` on the
ASCII inputs this script manipulates. -/
def lowc (c : Char) : Char :=
  if 'A' ≤ c ∧ c ≤ 'Z' then Char.ofNat (c.toNat + 32) else c

/-- Model of Python `str.lower()`. -/
def lowerStr (s : Chars) : Chars := s.map lowc

/-- Model of Python's substring test `needle in hay`. -/
def isSubstr (needle : Chars) : Chars → Bool
  | [] => needle.isEmpty
  | c :: t => needle.isPrefixOf (c :: t) || isSubstr needle t

/-- Python `\s` on the ASCII range: the whitespace class used by `re`. -/
def isPySpace (c : Char) : Bool :=
  c = ' ' || c = '\t' || c = '\n' || c = '\r' || c = '\x0b' || c = '\x0c'

/-- The character class `[\d,]`. -/
def isDigitComma (c : Char) : Bool := c.isDigit || c = ','

/-- Python `str.strip()`: drop leading and trailing whitespace. -/
def pyStrip (s : Chars) : Chars :=
  ((s.dropWhile isPySpace).reverse.dropWhile isPySpace).reverse

/-- One decimal digit as a character. -/
def digitChar (d : Nat) : Char :=
  match d with
  | 0 => '0' | 1 => '1' | 2 => '2' | 3 => '3' | 4 => '4'
  | 5 => '5' | 6 => '6' | 7 => '7' | 8 => '8' | _ => '9'

/-- Fuel-driven digit emitter (structural recursion so that the kernel can
evaluate it): emits the decimal digits of `n` in front of `acc`. -/
def natCharsGo : Nat → Nat → Chars → Chars
  | 0, _, acc => acc
  | fuel + 1, n, acc =>
    if n < 10 then digitChar n :: acc
    else natCharsGo fuel (n / 10) (digitChar (n % 10) :: acc)

/-- Decimal digit characters of a natural number, the model of Python `str(n)`
as used by the f-strings of the digest builder. -/
def natChars (n : Nat) : Chars := natCharsGo (n + 1) n []

/-- Value of a run of decimal digits. -/
def digitsToNat (ds : Chars) : Nat :=
  ds.foldl (fun a c => a * 10 + (c.toNat - 48)) 0

/-!  ## Data model

`RawJob` is the record produced by `parse_job_listings_from_body` (title,
company, location, link, optional inline salary); `Job` is the record carried
from the filtering stage to the digest builder (the dict literals built at
lines 740-746 and 326-332 of the script).  -/

structure RawJob where
  title : Chars
  company : Chars
  location : Chars
  link : Chars
  salary : Option Chars
deriving DecidableEq

structure Job where
  company : Chars
  title : Chars
  link : Chars
  compensation : Chars
  location : Chars
deriving DecidableEq

/-!  ## Classifier: `is_public_company` and `get_company_tier`  -/

/-- The `known_public` keyword set of `is_public_company` (lines 107-124),
in source order. -/
def known_public : List Chars :=
  [strC "google", strC "alphabet", strC "meta", strC "facebook", strC "amazon",
   strC "microsoft", strC "apple", strC "netflix", strC "tesla", strC "nvidia",
   strC "intel", strC "amd", strC "qualcomm", strC "salesforce", strC "oracle",
   strC "ibm", strC "cisco", strC "adobe", strC "intuit", strC "paypal",
   strC "uber", strC "lyft", strC "airbnb", strC "doordash", strC "coinbase",
   strC "snowflake", strC "databricks", strC "stripe", strC "atlassian",
   strC "shopify", strC "square", strC "block", strC "mongodb", strC "elastic",
   strC "twilio", strC "okta", strC "zoom", strC "slack", strC "dropbox",
   strC "pinterest", strC "snap", strC "twitter", strC "reddit", strC "roblox",
   strC "unity", strC "servicenow", strC "workday", strC "splunk",
   strC "crowdstrike", strC "palo alto", strC "fortinet", strC "cloudflare",
   strC "datadog", strC "gitlab", strC "hashicorp", strC "affirm", strC "cvs",
   strC "zillow", strC "anthropic", strC "ford", strC "walmart", strC "target",
   strC "home depot", strC "lowes", strC "best buy", strC "dell", strC "hp",
   strC "booking", strC "expedia", strC "wayfair", strC "ebay", strC "etsy",
   strC "chewy", strC "draft kings", strC "mgm", strC "caesars", strC "disney",
   strC "comcast", strC "verizon", strC "att", strC "t-mobile", strC "sprint",
   strC "charter", strC "dish", strC "fox", strC "viacom", strC "paramount",
   strC "warner", strC "discovery", strC "spotify", strC "roku",
   strC "peloton", strC "figma", strC "mixpanel", strC "blue origin",
   strC "sofi"]

/-- The `public_indicators` list of `is_public_company` (line 134). -/
def public_indicators : List Chars :=
  [strC "nasdaq", strC "nyse", strC "publicly traded", strC "stock options",
   strC "equity"]

/-- `is_public_company(company_name, job_description)` (lines 101-137). -/
def is_public_company (company_name job_description : Chars) : Bool :=
  known_public.any (fun k => isSubstr k (lowerStr company_name)) ||
  public_indicators.any (fun ind => isSubstr ind (lowerStr job_description))

/-- The `tier1` keyword set of `get_company_tier` (lines 381-385). -/
def tier1_companies : List Chars :=
  [strC "google", strC "alphabet", strC "meta", strC "facebook", strC "apple",
   strC "amazon", strC "netflix", strC "microsoft", strC "nvidia",
   strC "openai", strC "anthropic", strC "tesla", strC "spacex",
   strC "stripe", strC "databricks"]

/-- The `tier2` keyword set of `get_company_tier` (lines 388-397). -/
def tier2_companies : List Chars :=
  [strC "salesforce", strC "adobe", strC "uber", strC "lyft", strC "airbnb",
   strC "doordash", strC "snowflake", strC "oracle", strC "ibm", strC "cisco",
   strC "intel", strC "amd", strC "qualcomm", strC "shopify",
   strC "atlassian", strC "mongodb", strC "elastic", strC "twilio",
   strC "okta", strC "zoom", strC "slack", strC "dropbox", strC "pinterest",
   strC "snap", strC "twitter", strC "reddit", strC "roblox", strC "unity",
   strC "servicenow", strC "workday", strC "splunk", strC "crowdstrike",
   strC "palo alto", strC "fortinet", strC "cloudflare", strC "datadog",
   strC "gitlab", strC "hashicorp", strC "figma", strC "affirm",
   strC "coinbase", strC "square", strC "block", strC "spotify", strC "roku",
   strC "peloton", strC "blue origin", strC "mixpanel", strC "sofi"]

/-- `get_company_tier(company_name)` (lines 376-410): tier-1 keywords are
checked before tier-2 keywords, default tier 3. -/
def get_company_tier (company_name : Chars) : Nat :=
  if tier1_companies.any (fun k => isSubstr k (lowerStr company_name)) then 1
  else if tier2_companies.any (fun k => isSubstr k (lowerStr company_name)) then 2
  else 3

/-- Claim C8: tier classification is a total deterministic function into
{1,2,3}; the tier-1 set is consulted before the tier-2 set (first match wins,
default 3); `tier("Google LLC") = 1` and
`tier("Random Unknown Startup Inc") = 3`. -/
theorem get_company_tier_spec (s : Chars) :
    (get_company_tier s = 1 ∨ get_company_tier s = 2 ∨ get_company_tier s = 3) ∧
    (tier1_companies.any (fun k => isSubstr k (lowerStr s)) = true →
      get_company_tier s = 1) ∧
    (tier1_companies.any (fun k => isSubstr k (lowerStr s)) = false →
      tier2_companies.any (fun k => isSubstr k (lowerStr s)) = true →
      get_company_tier s = 2) ∧
    (tier1_companies.any (fun k => isSubstr k (lowerStr s)) = false →
      tier2_companies.any (fun k => isSubstr k (lowerStr s)) = false →
      get_company_tier s = 3) ∧
    get_company_tier (strC "Google LLC") = 1 ∧
    get_company_tier (strC "Random Unknown Startup Inc") = 3 := by
  refine ⟨?_, fun h1 => ?_, fun h1 h2 => ?_, fun h1 h2 => ?_, by decide, by decide⟩ <;>
    simp only [get_company_tier]
  · split
    · exact Or.inl rfl
    · split
      · exact Or.inr (Or.inl rfl)
      · exact Or.inr (Or.inr rfl)
  · simp [h1]
  · simp [h1, h2]
  · simp [h1, h2]

/-- Witness for C8 at concrete inputs. -/
theorem get_company_tier_spec_witness :
    get_company_tier (strC "Google LLC") = 1 ∧
    get_company_tier (strC "Random Unknown Startup Inc") = 3 :=
  ⟨(get_company_tier_spec (strC "Google LLC")).2.1 (by decide),
   (get_company_tier_spec (strC "Random Unknown Startup Inc")).2.2.2.1
     (by decide) (by decide)⟩

/-- Claim C9: an indicator phrase anywhere in the context text makes
`is_public_company` return `true` regardless of the company name; since the
orchestrator (line 710) passes the whole raw email body as the context, every
listing parsed from such an email passes the public-company filter. -/
theorem is_public_company_indicator (company context : Chars)
    (h : public_indicators.any (fun ind => isSubstr ind (lowerStr context)) = true) :
    is_public_company company context = true ∧
    ∀ jobs : List RawJob,
      jobs.filter (fun j => is_public_company j.company context) = jobs := by
  have hpub : ∀ c : Chars, is_public_company c context = true := by
    intro c
    simp only [is_public_company, Bool.or_eq_true]
    exact Or.inr h
  refine ⟨hpub company, fun jobs => ?_⟩
  exact List.filter_eq_self.mpr fun j _ => hpub j.company

/-- Witness for C9: "equity" occurs in the body, so a company unknown to the
static keyword table still passes. -/
theorem is_public_company_indicator_witness :
    is_public_company (strC "Zorblax Dynamics")
      (strC "We offer equity to all employees") = true :=
  (is_public_company_indicator (strC "Zorblax Dynamics")
    (strC "We offer equity to all employees") (by decide)).1

/-!  ## Job identifiers and the merge/dedup stage (lines 752-774)  -/

/-- The literal path segment of the pattern `/jobs/view/(\d+)`. -/
def jobsViewLit : Chars := strC "/jobs/view/"

/-- Model of `re.search(r'/jobs/view/(\d+)', link)`: the digit run following
the leftmost occurrence of `/jobs/view/` that is followed by at least one
digit. -/
def extractJobId : Chars → Option Chars
  | [] => none
  | c :: t =>
    if jobsViewLit.isPrefixOf (c :: t) then
      let ds := ((c :: t).drop jobsViewLit.length).takeWhile Char.isDigit
      if ds.isEmpty then extractJobId t else some ds
    else extractJobId t

/-- The deduplication key used by the merge stage: the numeric job id when one
can be extracted from the link, otherwise the full link string. -/
def keyOf (j : Job) : Chars :=
  match extractJobId j.link with
  | some i => i
  | none => j.link

/-- A job is dropped by the exclusion filter exactly when an id can be
extracted from its link and that id is in the exclusion set. -/
def isExcluded (excl : List Chars) (j : Job) : Bool :=
  match extractJobId j.link with
  | some i => decide (i ∈ excl)
  | none => false

/-- The loop body of lines 757-774: fold over `all_jobs` carrying the
`seen_job_ids` set (modelled as a list with membership), emitting
`unique_jobs`. -/
def dedupGo (excl : List Chars) (seen : List Chars) : List Job → List Job
  | [] => []
  | j :: t =>
    match extractJobId j.link with
    | some i =>
      if i ∈ excl then dedupGo excl seen t
      else if i ∈ seen then dedupGo excl seen t
      else j :: dedupGo excl (i :: seen) t
    | none =>
      if j.link ∈ seen then dedupGo excl seen t
      else j :: dedupGo excl (j.link :: seen) t

/-- The `seen_job_ids` state after the fold of `dedupGo`. -/
def dedupSeen (excl : List Chars) (seen : List Chars) : List Job → List Chars
  | [] => seen
  | j :: t =>
    match extractJobId j.link with
    | some i =>
      if i ∈ excl then dedupSeen excl seen t
      else if i ∈ seen then dedupSeen excl seen t
      else dedupSeen excl (i :: seen) t
    | none =>
      if j.link ∈ seen then dedupSeen excl seen t
      else dedupSeen excl (j.link :: seen) t

/-- `all_jobs = previous_jobs + filtered_jobs` followed by the dedup fold:
the computation of `unique_jobs` (lines 752-774). -/
def mergeDedup (excl : List Chars) (prev new : List Job) : List Job :=
  dedupGo excl [] (prev ++ new)

theorem dedupGo_append (excl : List Chars) (a b : List Job) : ∀ seen,
    dedupGo excl seen (a ++ b) =
      dedupGo excl seen a ++ dedupGo excl (dedupSeen excl seen a) b := by
  induction a with
  | nil => intro seen; simp [dedupGo, dedupSeen]
  | cons j t ih =>
    intro seen
    simp only [List.cons_append, dedupGo, dedupSeen]
    cases h : extractJobId j.link with
    | some i =>
      by_cases h1 : i ∈ excl
      · simp [h1, ih]
      · by_cases h2 : i ∈ seen
        · simp [h1, h2, ih]
        · simp [h1, h2, ih]
    | none =>
      by_cases h2 : j.link ∈ seen
      · simp [h2, ih]
      · simp [h2, ih]

theorem dedupGo_sublist (excl : List Chars) (l : List Job) : ∀ seen,
    List.Sublist (dedupGo excl seen l) l := by
  induction l with
  | nil => intro seen; simp [dedupGo]
  | cons j t ih =>
    intro seen
    simp only [dedupGo]
    cases h : extractJobId j.link with
    | some i =>
      by_cases h1 : i ∈ excl
      · exact (by simpa [h1] using (ih seen).cons j)
      · by_cases h2 : i ∈ seen
        · exact (by simpa [h1, h2] using (ih seen).cons j)
        · exact (by simpa [h1, h2] using (ih (i :: seen)).cons₂ j)
    | none =>
      by_cases h2 : j.link ∈ seen
      · exact (by simpa [h2] using (ih seen).cons j)
      · exact (by simpa [h2] using (ih (j.link :: seen)).cons₂ j)

theorem dedupSeen_mono (excl : List Chars) (l : List Job) : ∀ seen x,
    x ∈ seen → x ∈ dedupSeen excl seen l := by
  induction l with
  | nil => intro seen x hx; simpa [dedupSeen] using hx
  | cons j t ih =>
    intro seen x hx
    simp only [dedupSeen]
    cases h : extractJobId j.link with
    | some i =>
      by_cases h1 : i ∈ excl
      · simpa [h1] using ih seen x hx
      · by_cases h2 : i ∈ seen
        · simpa [h1, h2] using ih seen x hx
        · simpa [h1, h2] using ih (i :: seen) x (List.mem_cons_of_mem _ hx)
    | none =>
      by_cases h2 : j.link ∈ seen
      · simpa [h2] using ih seen x hx
      · simpa [h2] using ih (j.link :: seen) x (List.mem_cons_of_mem _ hx)

theorem dedupSeen_absorbs (excl : List Chars) (l : List Job) : ∀ seen, ∀ j ∈ l,
    keyOf j ∈ dedupSeen excl seen l ∨ isExcluded excl j = true := by
  induction l with
  | nil => intro seen j hj; cases hj
  | cons a t ih =>
    intro seen j hj
    rcases List.mem_cons.mp hj with rfl | hj
    · simp only [dedupSeen]
      cases h : extractJobId j.link with
      | some i =>
        by_cases h1 : i ∈ excl
        · exact Or.inr (by simp [isExcluded, h, h1])
        · by_cases h2 : i ∈ seen
          · refine Or.inl ?_
            have : keyOf j ∈ seen := by simpa [keyOf, h] using h2
            simpa [h1, h2] using dedupSeen_mono excl t seen _ this
          · refine Or.inl ?_
            have : keyOf j ∈ i :: seen := by simp [keyOf, h]
            simpa [h1, h2] using dedupSeen_mono excl t (i :: seen) _ this
      | none =>
        by_cases h2 : j.link ∈ seen
        · refine Or.inl ?_
          have : keyOf j ∈ seen := by simpa [keyOf, h] using h2
          simpa [h2] using dedupSeen_mono excl t seen _ this
        · refine Or.inl ?_
          have : keyOf j ∈ j.link :: seen := by simp [keyOf, h]
          simpa [h2] using dedupSeen_mono excl t (j.link :: seen) _ this
    · simp only [dedupSeen]
      cases h : extractJobId a.link with
      | some i =>
        by_cases h1 : i ∈ excl
        · simpa [h1] using ih seen j hj
        · by_cases h2 : i ∈ seen
          · simpa [h1, h2] using ih seen j hj
          · simpa [h1, h2] using ih (i :: seen) j hj
      | none =>
        by_cases h2 : a.link ∈ seen
        · simpa [h2] using ih seen j hj
        · simpa [h2] using ih (a.link :: seen) j hj

theorem dedupGo_all_absorbed (excl : List Chars) (m : List Job) : ∀ seen,
    (∀ j ∈ m, keyOf j ∈ seen ∨ isExcluded excl j = true) →
    dedupGo excl seen m = [] := by
  induction m with
  | nil => intro seen _; simp [dedupGo]
  | cons j t ih =>
    intro seen habs
    have hj := habs j (List.mem_cons_self j t)
    have htail : ∀ a ∈ t, keyOf a ∈ seen ∨ isExcluded excl a = true :=
      fun a ha => habs a (List.mem_cons_of_mem _ ha)
    simp only [dedupGo]
    cases h : extractJobId j.link with
    | some i =>
      by_cases h1 : i ∈ excl
      · simpa [h1] using ih seen htail
      · have h2 : i ∈ seen := by
          rcases hj with hk | he
          · simpa [keyOf, h] using hk
          · exact absurd he (by simp [isExcluded, h, h1])
        simpa [h1, h2] using ih seen htail
    | none =>
      have h2 : j.link ∈ seen := by
        rcases hj with hk | he
        · simpa [keyOf, h] using hk
        · exact absurd he (by simp [isExcluded, h])
      simpa [h2] using ih seen htail

theorem dedupGo_keys (excl : List Chars) (l : List Job) : ∀ seen,
    (∀ j ∈ dedupGo excl seen l, keyOf j ∉ seen) ∧
    (dedupGo excl seen l).Pairwise (fun a b => keyOf a ≠ keyOf b) := by
  induction l with
  | nil => intro seen; simp [dedupGo]
  | cons j t ih =>
    intro seen
    simp only [dedupGo]
    cases h : extractJobId j.link with
    | some i =>
      by_cases h1 : i ∈ excl
      · simpa [h1] using ih seen
      · by_cases h2 : i ∈ seen
        · simpa [h1, h2] using ih seen
        · simp only [h1, h2, if_false, if_neg]
          have ihc := ih (i :: seen)
          constructor
          · intro a ha
            rcases List.mem_cons.mp ha with rfl | ha
            · simpa [keyOf, h] using h2
            · have := ihc.1 a ha
              intro hmem
              exact this (List.mem_cons_of_mem _ hmem)
          · refine List.Pairwise.cons ?_ ihc.2
            intro b hb
            have hbk := ihc.1 b hb
            have : keyOf b ≠ i := fun hc => hbk (hc ▸ List.mem_cons_self i seen)
            simpa [keyOf, h] using fun hc => this hc.symm
    | none =>
      by_cases h2 : j.link ∈ seen
      · simpa [h2] using ih seen
      · simp only [h2, if_neg]
        have ihc := ih (j.link :: seen)
        constructor
        · intro a ha
          rcases List.mem_cons.mp ha with rfl | ha
          · simpa [keyOf, h] using h2
          · have := ihc.1 a ha
            intro hmem
            exact this (List.mem_cons_of_mem _ hmem)
        · refine List.Pairwise.cons ?_ ihc.2
          intro b hb
          have hbk := ihc.1 b hb
          have : keyOf b ≠ j.link := fun hc => hbk (hc ▸ List.mem_cons_self _ seen)
          simpa [keyOf, h] using fun hc => this hc.symm

theorem dedupGo_not_excluded (excl : List Chars) (l : List Job) : ∀ seen,
    ∀ j ∈ dedupGo excl seen l, isExcluded excl j = false := by
  induction l with
  | nil => intro seen j hj; simp [dedupGo] at hj
  | cons a t ih =>
    intro seen j hj
    simp only [dedupGo] at hj
    cases h : extractJobId a.link with
    | some i =>
      rw [h] at hj
      by_cases h1 : i ∈ excl
      · exact ih seen j (by simpa [h1] using hj)
      · by_cases h2 : i ∈ seen
        · exact ih seen j (by simpa [h1, h2] using hj)
        · simp only [h1, h2, if_false, if_neg] at hj
          rcases List.mem_cons.mp hj with rfl | hj
          · simp [isExcluded, h, h1]
          · exact ih (i :: seen) j hj
    | none =>
      rw [h] at hj
      by_cases h2 : a.link ∈ seen
      · exact ih seen j (by simpa [h2] using hj)
      · simp only [h2, if_neg] at hj
        rcases List.mem_cons.mp hj with rfl | hj
        · simp [isExcluded, h]
        · exact ih (a.link :: seen) j hj

/-- Claim C2: the final `unique_jobs` sequence passed to the digest builder
contains no listing whose extractable job id is in the exclusion set, and no
two listings with the same extractable job id, regardless of whether they came
from the recovered previous digest (`prev`) or from newly parsed emails
(`new`). -/
theorem mergeDedup_invariant (excl : List Chars) (prev new : List Job) :
    (∀ j ∈ mergeDedup excl prev new, ∀ i,
      extractJobId j.link = some i → i ∉ excl) ∧
    (mergeDedup excl prev new).Pairwise
      (fun a b => ∀ i, extractJobId a.link = some i →
        extractJobId b.link ≠ some i) := by
  constructor
  · intro j hj i hi
    have := dedupGo_not_excluded excl (prev ++ new) [] j hj
    simp only [isExcluded, hi, decide_eq_false_iff_not] at this
    exact this
  · have := (dedupGo_keys excl (prev ++ new) []).2
    refine this.imp ?_
    intro a b hab i ha hb
    apply hab
    simp [keyOf, ha, hb]

/-- Witness for C2: a concrete merged run in which the excluded id 999 is
dropped and the duplicate id 123 is kept once. -/
theorem mergeDedup_invariant_witness :
    strC "123" ∉ [strC "999"] ∧
    (mergeDedup [strC "999"]
        [⟨strC "A", strC "t", strC "https://www.linkedin.com/jobs/view/123/", strC "c", strC "l"⟩]
        [⟨strC "B", strC "t", strC "https://www.linkedin.com/jobs/view/999/", strC "c", strC "l"⟩,
         ⟨strC "C", strC "t", strC "https://www.linkedin.com/jobs/view/123/?x=1", strC "c", strC "l"⟩]).length = 1 :=
  ⟨(mergeDedup_invariant [strC "999"]
      [⟨strC "A", strC "t", strC "https://www.linkedin.com/jobs/view/123/", strC "c", strC "l"⟩]
      [⟨strC "B", strC "t", strC "https://www.linkedin.com/jobs/view/999/", strC "c", strC "l"⟩,
       ⟨strC "C", strC "t", strC "https://www.linkedin.com/jobs/view/123/?x=1", strC "c", strC "l"⟩]).1
    ⟨strC "A", strC "t", strC "https://www.linkedin.com/jobs/view/123/", strC "c", strC "l"⟩
    (by decide) (strC "123") (by decide), by decide⟩

/-- Claim C5: the dedup pass is idempotent — applied to `l ++ l` it returns the
same output as applied to `l` alone, that output has pairwise distinct dedup
keys, and it preserves the order of first occurrence (it is a sublist of the
input). -/
theorem dedup_idempotent (excl : List Chars) (l : List Job) :
    dedupGo excl [] (l ++ l) = dedupGo excl [] l ∧
    ((dedupGo excl [] (l ++ l)).map keyOf).Nodup ∧
    List.Sublist (dedupGo excl [] (l ++ l)) l := by
  have habs : ∀ j ∈ l, keyOf j ∈ dedupSeen excl [] l ∨ isExcluded excl j = true :=
    fun j hj => dedupSeen_absorbs excl l [] j hj
  have hskip : dedupGo excl (dedupSeen excl [] l) l = [] :=
    dedupGo_all_absorbed excl l (dedupSeen excl [] l) habs
  have heq : dedupGo excl [] (l ++ l) = dedupGo excl [] l := by
    rw [dedupGo_append excl l l [], hskip, List.append_nil]
  refine ⟨heq, ?_, heq ▸ dedupGo_sublist excl l []⟩
  rw [heq]
  have := (dedupGo_keys excl l []).2
  simpa [List.Nodup, List.pairwise_map] using this

/-- Witness for C5 (no hypotheses in the main theorem; this instantiates it on
a concrete duplicated list). -/
theorem dedup_idempotent_witness :
    dedupGo []
      [] ([⟨strC "A", strC "t", strC "https://www.linkedin.com/jobs/view/5/", strC "c", strC "l"⟩] ++
          [⟨strC "A", strC "t", strC "https://www.linkedin.com/jobs/view/5/", strC "c", strC "l"⟩]) =
    dedupGo []
      [] [⟨strC "A", strC "t", strC "https://www.linkedin.com/jobs/view/5/", strC "c", strC "l"⟩] :=
  (dedup_idempotent []
    [⟨strC "A", strC "t", strC "https://www.linkedin.com/jobs/view/5/", strC "c", strC "l"⟩]).1

/-- Claim C7: the merged output is the deduplication of the prior-run listings
followed by the deduplication of the new listings (so all surviving prior
listings precede all surviving new ones), each group preserves its first-seen
order (sublist of its source), the dedup keys of the output are pairwise
distinct, and the key is the extracted numeric id when present and the full
link otherwise. -/
theorem mergeDedup_order (excl : List Chars) (prev new : List Job) :
    mergeDedup excl prev new =
      dedupGo excl [] prev ++ dedupGo excl (dedupSeen excl [] prev) new ∧
    List.Sublist (dedupGo excl [] prev) prev ∧
    List.Sublist (dedupGo excl (dedupSeen excl [] prev) new) new ∧
    ((mergeDedup excl prev new).map keyOf).Nodup ∧
    (∀ j : Job, ∀ i, extractJobId j.link = some i → keyOf j = i) ∧
    (∀ j : Job, extractJobId j.link = none → keyOf j = j.link) := by
  refine ⟨dedupGo_append excl prev new [], dedupGo_sublist excl prev [],
    dedupGo_sublist excl new _, ?_, ?_, ?_⟩
  · have := (dedupGo_keys excl (prev ++ new) []).2
    simpa [mergeDedup, List.Nodup, List.pairwise_map] using this
  · intro j i hi; simp [keyOf, hi]
  · intro j hi; simp [keyOf, hi]

/-- Witness for C7: concrete prior and new listings; the surviving prior
listing precedes the surviving new one. -/
theorem mergeDedup_order_witness :
    mergeDedup [] [⟨strC "P", strC "t", strC "https://www.linkedin.com/jobs/view/1/", strC "c", strC "l"⟩]
      [⟨strC "N", strC "t", strC "https://www.linkedin.com/jobs/view/2/", strC "c", strC "l"⟩] =
    dedupGo [] [] [⟨strC "P", strC "t", strC "https://www.linkedin.com/jobs/view/1/", strC "c", strC "l"⟩] ++
    dedupGo []
      (dedupSeen [] [] [⟨strC "P", strC "t", strC "https://www.linkedin.com/jobs/view/1/", strC "c", strC "l"⟩])
      [⟨strC "N", strC "t", strC "https://www.linkedin.com/jobs/view/2/", strC "c", strC "l"⟩] :=
  (mergeDedup_order [] [⟨strC "P", strC "t", strC "https://www.linkedin.com/jobs/view/1/", strC "c", strC "l"⟩]
    [⟨strC "N", strC "t", strC "https://www.linkedin.com/jobs/view/2/", strC "c", strC "l"⟩]).1

/-- Claim C10: in the merge/dedup stage, a listing from whose link no numeric
id can be extracted is never consulted against the exclusion set — its
step depends only on whether its full link is already a seen key — and it is
deduplicated by the full link string. -/
theorem dedup_no_id_step (excl : List Chars) (seen : List Chars) (j : Job)
    (t : List Job) (h : extractJobId j.link = none) :
    (j.link ∉ seen →
      dedupGo excl seen (j :: t) = j :: dedupGo excl (j.link :: seen) t) ∧
    (j.link ∈ seen → dedupGo excl seen (j :: t) = dedupGo excl seen t) := by
  constructor <;> intro h2 <;> simp [dedupGo, h, h2]

/-- Witness for C10: a listing with a non-LinkedIn link survives even though
its full link string is (as an id) listed in the exclusion set. -/
theorem dedup_no_id_step_witness :
    dedupGo [strC "https://example.com/careers/42"] []
      [⟨strC "X", strC "t", strC "https://example.com/careers/42", strC "c", strC "l"⟩] =
    [⟨strC "X", strC "t", strC "https://example.com/careers/42", strC "c", strC "l"⟩] := by
  have := (dedup_no_id_step [strC "https://example.com/careers/42"] []
    ⟨strC "X", strC "t", strC "https://example.com/careers/42", strC "c", strC "l"⟩ []
    (by decide)).1 (by decide)
  simpa [dedupGo] using this

/-!  ## Deterministic matchers for the script's `re` patterns

Each matcher consumes a prefix of its input and returns the consumed
characters and the remainder.  All compensation patterns are searched with
`re.IGNORECASE`, so literals compare lowercased.  The patterns of this script
never need backtracking (after every greedy class the next required token is
outside the class, alternations have pairwise distinct first characters, and
trailing optionals cannot cause failure), so these deterministic greedy
matchers compute exactly Python's match.  -/

abbrev Matcher := Chars → Option (Chars × Chars)

def mLitGo : Chars → Chars → Option (Chars × Chars)
  | [], s => some ([], s)
  | _ :: _, [] => none
  | a :: l, c :: s =>
    if lowc a = lowc c then (mLitGo l s).map (fun p => (c :: p.1, p.2)) else none

/-- Case-insensitive literal. -/
def mLit (lit : Chars) : Matcher := fun s => mLitGo lit s

/-- One-or-more repetition of a character class (greedy). -/
def mCls1 (p : Char → Bool) : Matcher := fun s =>
  let t := s.takeWhile p
  if t.isEmpty then none else some (t, s.drop t.length)

/-- Zero-or-more repetition of a character class (greedy). -/
def mCls0 (p : Char → Bool) : Matcher := fun s =>
  some (s.takeWhile p, s.drop (s.takeWhile p).length)

/-- Optional single character, case-insensitive (greedy). -/
def mOptC (a : Char) : Matcher := fun s =>
  match s with
  | [] => some ([], [])
  | c :: t => if lowc c = lowc a then some ([c], t) else some ([], c :: t)

def mSeq (m1 m2 : Matcher) : Matcher := fun s =>
  match m1 s with
  | none => none
  | some (x, r) =>
    match m2 r with
    | none => none
    | some (y, r2) => some (x ++ y, r2)

/-- Alternation of literals (tried in order; in this script's patterns the
alternatives have pairwise distinct first characters). -/
def mAlt : List Chars → Matcher
  | [] => fun _ => none
  | l :: ls => fun s =>
    match mLit l s with
    | some r => some r
    | none => mAlt ls s

def mcat : List Matcher → Matcher
  | [] => fun s => some ([], s)
  | m :: ms => mSeq m (mcat ms)

/-- `re.search`: try the matcher at each position left to right and return the
text of the leftmost match. -/
def pySearch (m : Matcher) : Chars → Option Chars
  | [] =>
    match m [] with
    | some (f, _) => some f
    | none => none
  | c :: t =>
    match m (c :: t) with
    | some (f, _) => some f
    | none => pySearch m t

/-!  ## `extract_compensation` (lines 194-228)  -/

/-- `(?:base salary range|salary range|pay range)\s+is\s+[\d,]+\s+USD\s*-\s*[\d,]+\s+USD` -/
def compPat1 : Matcher :=
  mcat [mAlt [strC "base salary range", strC "salary range", strC "pay range"],
        mCls1 isPySpace, mLit (strC "is"), mCls1 isPySpace, mCls1 isDigitComma,
        mCls1 isPySpace, mLit (strC "USD"), mCls0 isPySpace, mLit (strC "-"),
        mCls0 isPySpace, mCls1 isDigitComma, mCls1 isPySpace, mLit (strC "USD")]

/-- `\$[\d,]+K?\s*-\s*\$[\d,]+K?\s*/\s*ye?a?r?` -/
def compPat2 : Matcher :=
  mcat [mLit (strC "$"), mCls1 isDigitComma, mOptC 'K', mCls0 isPySpace,
        mLit (strC "-"), mCls0 isPySpace, mLit (strC "$"), mCls1 isDigitComma,
        mOptC 'K', mCls0 isPySpace, mLit (strC "/"), mCls0 isPySpace,
        mLit (strC "y"), mOptC 'e', mOptC 'a', mOptC 'r']

/-- `\$[\d,]+K?\s*/\s*ye?a?r?\+` -/
def compPat3 : Matcher :=
  mcat [mLit (strC "$"), mCls1 isDigitComma, mOptC 'K', mCls0 isPySpace,
        mLit (strC "/"), mCls0 isPySpace, mLit (strC "y"), mOptC 'e',
        mOptC 'a', mOptC 'r', mLit (strC "+")]

/-- `\$[\d,]+[Kk]?\s*-\s*\$[\d,]+[Kk]?` -/
def compPat4 : Matcher :=
  mcat [mLit (strC "$"), mCls1 isDigitComma, mOptC 'K', mCls0 isPySpace,
        mLit (strC "-"), mCls0 isPySpace, mLit (strC "$"), mCls1 isDigitComma,
        mOptC 'K']

/-- `\$[\d,]+[Kk]?\+` -/
def compPat5 : Matcher :=
  mcat [mLit (strC "$"), mCls1 isDigitComma, mOptC 'K', mLit (strC "+")]

/-- `[\d,]+[Kk]\s*-\s*[\d,]+[Kk]` -/
def compPat6 : Matcher :=
  mcat [mCls1 isDigitComma, mLit (strC "K"), mCls0 isPySpace, mLit (strC "-"),
        mCls0 isPySpace, mCls1 isDigitComma, mLit (strC "K")]

/-- `(?:base salary|salary range|compensation|pay range):?\s*\$?[\d,]+[Kk]?\s*-\s*\$?[\d,]+[Kk]?` -/
def compPat7 : Matcher :=
  mcat [mAlt [strC "base salary", strC "salary range", strC "compensation",
              strC "pay range"],
        mOptC ':', mCls0 isPySpace, mOptC '$', mCls1 isDigitComma, mOptC 'K',
        mCls0 isPySpace, mLit (strC "-"), mCls0 isPySpace, mOptC '$',
        mCls1 isDigitComma, mOptC 'K']

/-- `(?:base salary|compensation):?\s*\$?[\d,]+[Kk]?\+` -/
def compPat8 : Matcher :=
  mcat [mAlt [strC "base salary", strC "compensation"],
        mOptC ':', mCls0 isPySpace, mOptC '$', mCls1 isDigitComma, mOptC 'K',
        mLit (strC "+")]

/-- The `comp_patterns` list of `extract_compensation`, in source (priority)
order. -/
def comp_patterns : List Matcher :=
  [compPat1, compPat2, compPat3, compPat4, compPat5, compPat6, compPat7,
   compPat8]

/-- The `for pattern in comp_patterns` loop: the match text of the first
pattern in priority order that matches anywhere. -/
def firstMatchText : List Matcher → Chars → Option Chars
  | [], _ => none
  | m :: ms, s =>
    match pySearch m s with
    | some f => some f
    | none => firstMatchText ms s

/-- Worker for `collapseWs`: `prevWs` records whether the previous character
belonged to a whitespace run that has already been replaced by one space. -/
def collapseWsGo (prevWs : Bool) : Chars → Chars
  | [] => []
  | c :: t =>
    if isPySpace c then
      if prevWs then collapseWsGo true t else ' ' :: collapseWsGo true t
    else c :: collapseWsGo false t

/-- `re.sub(r'\s+', ' ', comp)`: collapse every whitespace run to one space. -/
def collapseWs (s : Chars) : Chars := collapseWsGo false s

/-- `re.sub(r'yr', 'year', comp, flags=re.IGNORECASE)`. -/
def subYr : Chars → Chars
  | [] => []
  | [a] => [a]
  | a :: b :: t =>
    if lowc a = 'y' ∧ lowc b = 'r' then 'y' :: 'e' :: 'a' :: 'r' :: subYr t
    else a :: subYr (b :: t)

/-- Worker for `findRuns`: `cur` is the current run, collected in reverse. -/
def findRunsGo (p : Char → Bool) (cur : Chars) : Chars → List Chars
  | [] => if cur.isEmpty then [] else [cur.reverse]
  | c :: t =>
    if p c then findRunsGo p (c :: cur) t
    else if cur.isEmpty then findRunsGo p [] t
    else cur.reverse :: findRunsGo p [] t

/-- `re.findall(r'[\d,]+', comp)` generalized to a class: the maximal runs. -/
def findRuns (p : Char → Bool) (s : Chars) : List Chars := findRunsGo p [] s

/-- Python `int(run.replace(',', ''))` on a `[\d,]+` run: raises (`none`) when
the run contains no digit at all (`int('')`). -/
def natOfRun (run : Chars) : Option Nat :=
  let ds := run.filter (fun c => c ≠ ',')
  if ds.isEmpty then none else some (digitsToNat ds)

/-- `f"${low//1000}K-${high//1000}K"`. -/
def kFormat (low high : Nat) : Chars :=
  strC "$" ++ natChars (low / 1000) ++ strC "K-$" ++ natChars (high / 1000) ++
    strC "K"

def usdLit : Chars := strC "USD"

def notSpecified : Chars := strC "Not specified"

/-- The clean-up applied to a match by `extract_compensation` (lines 215-226):
whitespace collapapse, `yr`→`year`, and — when the (case-sensitive) substring
`USD` is present — reformatting of the first two `[\d,]+` runs with integer
division by 1000.  `int('')` raises `ValueError`, modelled by `Except.error`.
-/
def normalizeComp (m : Chars) : Except Unit Chars :=
  let c := subYr (collapseWs m)
  if isSubstr usdLit c then
    match findRuns isDigitComma c with
    | n0 :: n1 :: _ =>
      match natOfRun n0, natOfRun n1 with
      | some low, some high => Except.ok (kFormat low high)
      | _, _ => Except.error ()
    | _ => Except.ok c
  else Except.ok c

/-- `extract_compensation(text)` (lines 194-228). -/
def extract_compensation (text : Chars) : Except Unit Chars :=
  match firstMatchText comp_patterns text with
  | some m => normalizeComp m
  | none => Except.ok notSpecified

/-!  ## The live-fetch salary scan of `fetch_salary_from_job_page`
(lines 170-189)  -/

/-- Matchers that also return the `([\d,]+)` capture groups. -/
abbrev MatcherG := Chars → Option (Chars × List Chars × Chars)

def mgLit (lit : Chars) : MatcherG := fun s =>
  (mLitGo lit s).map (fun p => (p.1, [], p.2))

/-- A capturing group `([\d,]+)` (greedy). -/
def mgGrp (p : Char → Bool) : MatcherG := fun s =>
  let t := s.takeWhile p
  if t.isEmpty then none else some (t, [t], s.drop t.length)

def mgSeq (m1 m2 : MatcherG) : MatcherG := fun s =>
  match m1 s with
  | none => none
  | some (x, gx, r) =>
    match m2 r with
    | none => none
    | some (y, gy, r2) => some (x ++ y, gx ++ gy, r2)

def mgcat : List MatcherG → MatcherG
  | [] => fun s => some ([], [], s)
  | m :: ms => mgSeq m (mgcat ms)

/-- `re.search` for a grouped matcher: leftmost match text and its groups. -/
def pySearchG (m : MatcherG) : Chars → Option (Chars × List Chars)
  | [] =>
    match m [] with
    | some (f, g, _) => some (f, g)
    | none => none
  | c :: t =>
    match m (c :: t) with
    | some (f, g, _) => some (f, g)
    | none => pySearchG m t

/-- `\$([\d,]+)\.00/yr - \$([\d,]+)\.00/yr` -/
def fetchPatG1 : MatcherG :=
  mgcat [mgLit (strC "$"), mgGrp isDigitComma, mgLit (strC ".00/yr - $"),
         mgGrp isDigitComma, mgLit (strC ".00/yr")]

/-- `base salary range is ([\d,]+) USD - ([\d,]+) USD` -/
def fetchPatG2 : MatcherG :=
  mgcat [mgLit (strC "base salary range is "), mgGrp isDigitComma,
         mgLit (strC " USD - "), mgGrp isDigitComma, mgLit (strC " USD")]

/-- `\$([\d,]+) - \$([\d,]+)` -/
def fetchPatG3 : MatcherG :=
  mgcat [mgLit (strC "$"), mgGrp isDigitComma, mgLit (strC " - $"),
         mgGrp isDigitComma]

/-- The `salary_patterns` list of `fetch_salary_from_job_page`, in source
(priority) order. -/
def fetch_salary_patterns : List MatcherG := [fetchPatG1, fetchPatG2, fetchPatG3]

/-- Lines 183-187: rebuild `$<low//1000>K-$<high//1000>K` from the two groups;
if `int()` raises (comma-only group) the surrounding `except` returns `None`.
-/
def fetchNormalize (gs : List Chars) : Option Chars :=
  match gs with
  | g1 :: g2 :: _ =>
    match natOfRun g1, natOfRun g2 with
    | some low, some high => some (kFormat low high)
    | _, _ => none
  | _ => none

/-- The scanning loop of `fetch_salary_from_job_page` over the fetched HTML
(lines 180-189): first matching pattern wins, then K-normalization. -/
def fetchScanGo : List MatcherG → Chars → Option Chars
  | [], _ => none
  | m :: ms, s =>
    match pySearchG m s with
    | some (_, gs) => fetchNormalize gs
    | none => fetchScanGo ms s

/-- The pure scanning part of `fetch_salary_from_job_page`, applied to the
HTML text returned by the HTTP fetch. -/
def fetch_salary_scan (html : Chars) : Option Chars :=
  fetchScanGo fetch_salary_patterns html

/-- The match text of the first fetch-path pattern that matches: the object
the claim compares against the inline/body scan. -/
def fetchFirstMatchText (s : Chars) : Option Chars :=
  match pySearchG fetchPatG1 s with
  | some (f, _) => some f
  | none =>
    match pySearchG fetchPatG2 s with
    | some (f, _) => some f
    | none =>
      match pySearchG fetchPatG3 s with
      | some (f, _) => some f
      | none => none

/-- Modelled from the spec's amended wording for the live-fetch scan: try the
three fetch-specific priority-ordered patterns (decimal `/yr` range,
USD-labelled range, plain dollar range) in order and K-normalize the first
match's two numeric groups. -/
def fetchScanSpec (html : Chars) : Option Chars :=
  match pySearchG fetchPatG1 html with
  | some (_, gs) => fetchNormalize gs
  | none =>
    match pySearchG fetchPatG2 html with
    | some (_, gs) => fetchNormalize gs
    | none =>
      match pySearchG fetchPatG3 html with
      | some (_, gs) => fetchNormalize gs
      | none => none

/-- Counterexample to claim C3 as stated: on `"$10K-$20K"` the inline/body
scan matches (its fourth pattern) while the live-fetch scan's pattern list
matches nothing, so the two scans do not use the same pattern list. -/
theorem fetch_body_scan_differ :
    fetchFirstMatchText (strC "$10K-$20K") = none ∧
    firstMatchText comp_patterns (strC "$10K-$20K") =
      some (strC "$10K-$20K") := by
  exact ⟨rfl, rfl⟩

/-- Claim C3, amended: the live-fetch scan applies its own three
priority-ordered salary regexes with K-normalization (equivalently stated as
the spec-style cascaded scan `fetchScanSpec`), a pattern list that differs
from the inline/body scan's. -/
theorem fetch_salary_scan_spec (html : Chars) :
    fetch_salary_scan html = fetchScanSpec html ∧
    fetchFirstMatchText (strC "$10K-$20K") ≠
      firstMatchText comp_patterns (strC "$10K-$20K") := by
  constructor
  · rfl
  · intro h
    exact absurd (fetch_body_scan_differ.1 ▸ h ▸ fetch_body_scan_differ.2) (by simp)

/-- Witness for the amended C3 theorem at a concrete fetched page text. -/
theorem fetch_salary_scan_spec_witness :
    fetch_salary_scan (strC "pay: $272,000.00/yr - $431,250.00/yr here") =
      fetchScanSpec (strC "pay: $272,000.00/yr - $431,250.00/yr here") :=
  (fetch_salary_scan_spec (strC "pay: $272,000.00/yr - $431,250.00/yr here")).1

/-- Claim C6 (code bug): `extract_compensation` is not exception-free — on a
USD-labelled range whose first `[\d,]+` group is all commas the Python code
reaches `int('')` and raises `ValueError` (first conjunct).  On the claim's
two well-formed example inputs the resolver does return exactly the stated
values (second and third conjuncts). -/
theorem extract_compensation_eval :
    extract_compensation (strC "base salary range is ,, USD - 3 USD") =
      Except.error () ∧
    extract_compensation (strC "$198K-$343K / year") =
      Except.ok (strC "$198K-$343K / year") ∧
    extract_compensation (strC "The base salary range is 150,000 USD - 200,000 USD") =
      Except.ok (strC "$150K-$200K") := by
  exact ⟨rfl, rfl, rfl⟩

/-!  ## Orchestrator (`process_linkedin_emails`, lines 660-798)

The mail tool and the HTTP fetch are external collaborators: the listing
parser applied to an email body and the live salary fetch are passed as
function parameters, and the mutating mail operations are recorded as an
effect trace.  `Effect.deletePass` stands for the call to
`delete_old_summary_emails` (the pass that trash-labels all prior digest
threads), `Effect.send` for the `gog gmail send` of the digest, and
`Effect.markRead i` for the UNREAD-label removal on source email `i`. -/

inductive Effect where
  | deletePass : Effect
  | send : Effect
  | markRead : Chars → Effect
deriving DecidableEq

/-- A source email as seen by the orchestrator: its thread id (line 684 skips
entries without one) and the body returned by the detail fetch. -/
structure MailMsg where
  id : Option Chars
  body : Chars

/-- The per-listing loop of lines 706-748: public-company filter, per-email
exclusion check, then the compensation fallback chain (inline salary → body
scan → live fetch).  An exception from `extract_compensation` propagates. -/
def processJobs (excl : List Chars) (fetchSal : Chars → Option Chars)
    (body : Chars) : List RawJob → Except Unit (List Job)
  | [] => Except.ok []
  | j :: rest =>
    if is_public_company j.company body = false then
      processJobs excl fetchSal body rest
    else if (match extractJobId j.link with
             | some i => decide (i ∈ excl)
             | none => false) then
      processJobs excl fetchSal body rest
    else do
      let comp ← match j.salary with
        | some s => if s.isEmpty then extract_compensation body else Except.ok s
        | none => extract_compensation body
      let comp2 := if comp = notSpecified ∨ comp = [] then
          (match fetchSal j.link with
           | some p => p
           | none => comp)
        else comp
      let rest2 ← processJobs excl fetchSal body rest
      Except.ok (⟨j.company, j.title, j.link,
        (if comp2 = [] then notSpecified else comp2), j.location⟩ :: rest2)

/-- The per-email loop of lines 683-750: accumulate filtered jobs and the ids
of emails that contributed at least one parsed listing. -/
def processEmails (parse : Chars → List RawJob)
    (fetchSal : Chars → Option Chars) (excl : List Chars) :
    List MailMsg → Except Unit (List Job × List Chars)
  | [] => Except.ok ([], [])
  | m :: rest =>
    match m.id with
    | none => processEmails parse fetchSal excl rest
    | some mid =>
      if (parse m.body).isEmpty then processEmails parse fetchSal excl rest
      else do
        let js ← processJobs excl fetchSal m.body (parse m.body)
        let p ← processEmails parse fetchSal excl rest
        Except.ok (js ++ p.1, mid :: p.2)

/-- `process_linkedin_emails(recipient, dry_run)` (lines 660-798), with the
previously recovered digest listings, the fetched source emails, the listing
parser and the live salary fetch supplied as parameters, returning the
mutating-effect trace and the `unique_jobs` list handed to the digest
builder. -/
def process_linkedin_emails (parse : Chars → List RawJob)
    (fetchSal : Chars → Option Chars) (excl : List Chars)
    (prevJobs : List Job) (emails : List MailMsg) (dryRun : Bool) :
    Except Unit (List Effect × List Job) :=
  if emails.isEmpty ∧ prevJobs.isEmpty then Except.ok ([], [])
  else
    match processEmails parse fetchSal excl emails with
    | Except.error e => Except.error e
    | Except.ok fp =>
      let uniqueJobs := mergeDedup excl prevJobs fp.1
      let sendFx := if uniqueJobs.isEmpty then []
        else (if dryRun then [] else [Effect.deletePass]) ++ [Effect.send]
      let readFx := if dryRun = false ∧ fp.2.isEmpty = false
        then fp.2.map Effect.markRead else []
      Except.ok (sendFx ++ readFx, uniqueJobs)

/-- A concrete recovered listing used by the C1 witness and counterexample. -/
def sampleJob : Job :=
  ⟨strC "Acme", strC "Engineer", strC "https://www.linkedin.com/jobs/view/7/",
   strC "$1K", strC "NY"⟩

/-- Counterexample to claim C1 as stated: in preview (dry-run) mode, a run
with one surviving listing still invokes the digest send operation — the
trace is `[send]`, not empty.  Only the delete pass and the mark-as-read
label changes are suppressed by `--dry-run` (which matches the script's own
help text "Don't mark emails as read"). -/
theorem preview_still_sends :
    process_linkedin_emails (fun _ => []) (fun _ => none) [] [sampleJob] []
      true = Except.ok ([Effect.send], [sampleJob]) := rfl

/-- Claim C1, amended: preview mode never invokes the delete pass over prior
digests and never modifies labels, but it does send the digest (exactly one
send when at least one listing survives); mutating mode with at least one
surviving listing produces exactly one delete pass, followed immediately by
exactly one send, followed only by mark-as-read operations. -/
theorem orchestrator_effects (parse : Chars → List RawJob)
    (fetchSal : Chars → Option Chars) (excl : List Chars)
    (prevJobs : List Job) (emails : List MailMsg) (dryRun : Bool)
    (fx : List Effect) (uq : List Job)
    (h : process_linkedin_emails parse fetchSal excl prevJobs emails dryRun =
      Except.ok (fx, uq)) :
    (dryRun = true →
      (Effect.deletePass ∉ fx ∧ ∀ i, Effect.markRead i ∉ fx) ∧
      (uq ≠ [] → fx = [Effect.send])) ∧
    (dryRun = false → uq ≠ [] →
      ∃ ids : List Chars,
        fx = Effect.deletePass :: Effect.send :: ids.map Effect.markRead) := by
  rw [process_linkedin_emails] at h
  by_cases hearly : emails.isEmpty = true ∧ prevJobs.isEmpty = true
  · rw [if_pos hearly] at h
    obtain ⟨hfx, huq⟩ := Prod.mk.inj (Except.ok.inj h)
    constructor
    · intro _
      exact ⟨⟨by simp [← hfx], fun i => by simp [← hfx]⟩,
        fun hne => absurd huq.symm hne⟩
    · intro _ hne
      exact absurd huq.symm hne
  · rw [if_neg hearly] at h
    cases hp : processEmails parse fetchSal excl emails with
    | error e => rw [hp] at h; cases h
    | ok fp =>
      rw [hp] at h
      obtain ⟨hfx, huq⟩ := Prod.mk.inj (Except.ok.inj h)
      constructor
      · intro hdry
        subst hdry
        simp only [Bool.true_eq_false, false_and, if_false, if_true,
          List.append_nil] at hfx
        constructor
        · constructor
          · by_cases he : (mergeDedup excl prevJobs fp.1).isEmpty = true
            · simp [← hfx, he]
            · simp [← hfx, he]
          · intro i
            by_cases he : (mergeDedup excl prevJobs fp.1).isEmpty = true
            · simp [← hfx, he]
            · simp [← hfx, he]
        · intro hne
          have he : (mergeDedup excl prevJobs fp.1).isEmpty = false := by
            rw [← huq] at hne
            cases hm : mergeDedup excl prevJobs fp.1 with
            | nil => exact absurd hm hne
            | cons a l => rfl
          simp [← hfx, he]
      · intro hdry hne
        subst hdry
        have he : (mergeDedup excl prevJobs fp.1).isEmpty = false := by
          rw [← huq] at hne
          cases hm : mergeDedup excl prevJobs fp.1 with
          | nil => exact absurd hm hne
          | cons a l => rfl
        by_cases hr : fp.2.isEmpty = false
        · refine ⟨fp.2, ?_⟩
          simp [← hfx, he, hr]
        · refine ⟨[], ?_⟩
          simp only [Bool.not_eq_false] at hr
          simp [← hfx, he, hr]

/-- Witness for the amended C1 theorem: a concrete mutating run with one
surviving recovered listing produces exactly the trace
`[deletePass, send]`. -/
theorem orchestrator_effects_witness :
    ∃ ids : List Chars,
      [Effect.deletePass, Effect.send] =
        Effect.deletePass :: Effect.send :: ids.map Effect.markRead :=
  (orchestrator_effects (fun _ => []) (fun _ => none) [] [sampleJob] [] false
    [Effect.deletePass, Effect.send] [sampleJob] rfl).2 rfl (by decide)

/-!  ## Scanning infrastructure for the digest round trip (claim C4)

`litRefuted needle u` decides that `u` disagrees with `needle` somewhere
inside `u` itself, so that `needle` cannot match at this position no matter
what follows `u`; `scanClear needle L` decides it for every position of `L`.
-/

def litRefuted (needle u : Chars) : Bool :=
  (u.zip needle).any (fun p => p.1 != p.2)

def scanClear (needle : Chars) : Chars → Bool
  | [] => true
  | c :: t => litRefuted needle (c :: t) && scanClear needle t

theorem litRefuted_not_prefixOf {needle u : Chars}
    (h : litRefuted needle u = true) (s : Chars) :
    needle.isPrefixOf (u ++ s) = false := by
  induction u generalizing needle with
  | nil => simp [litRefuted] at h
  | cons c t ih =>
    cases needle with
    | nil => simp [litRefuted] at h
    | cons a n =>
      simp only [litRefuted, List.zip_cons_cons, List.any_cons, Bool.or_eq_true,
        bne_iff_ne, ne_eq, decide_eq_true_eq] at h
      rcases h with h | h
      · simp [List.cons_append, List.isPrefixOf, beq_iff_eq]
        intro he
        exact absurd he.symm h
      · have := @ih n (by simpa [litRefuted] using h)
        simp only [List.cons_append, List.isPrefixOf, Bool.and_eq_false_iff]
        exact Or.inr this

theorem isPrefixOf_append_self (p s : Chars) : p.isPrefixOf (p ++ s) = true := by
  induction p with
  | nil => simp [List.isPrefixOf]
  | cons c t ih => simp [List.isPrefixOf, ih]

theorem isPrefixOf_extend {p u : Chars} (h : p.isPrefixOf u = true)
    (s : Chars) : p.isPrefixOf (u ++ s) = true := by
  induction p generalizing u with
  | nil => simp [List.isPrefixOf]
  | cons c t ih =>
    cases u with
    | nil => simp [List.isPrefixOf] at h
    | cons a v =>
      simp only [List.isPrefixOf, Bool.and_eq_true, beq_iff_eq] at h
      simpa [List.isPrefixOf, h.1] using ih h.2

theorem length_le_of_isPrefixOf {p u : Chars} (h : p.isPrefixOf u = true) :
    p.length ≤ u.length := by
  induction p generalizing u with
  | nil => simp
  | cons c t ih =>
    cases u with
    | nil => simp [List.isPrefixOf] at h
    | cons a v =>
      simp only [List.isPrefixOf, Bool.and_eq_true] at h
      simpa using ih h.2

theorem takeWhile_append_all {p : Char → Bool} {a : Chars}
    (h : ∀ c ∈ a, p c = true) (b : Chars) :
    (a ++ b).takeWhile p = a ++ b.takeWhile p := by
  induction a with
  | nil => simp
  | cons c t ih =>
    have hc := h c (List.mem_cons_self c t)
    simp [List.takeWhile_cons, hc, ih (fun x hx => h x (List.mem_cons_of_mem _ hx))]

theorem takeWhile_append_stop {p : Char → Bool} {u : Chars}
    (h : (u.takeWhile p).length < u.length) (s : Chars) :
    (u ++ s).takeWhile p = u.takeWhile p := by
  induction u with
  | nil => simp at h
  | cons c t ih =>
    by_cases hc : p c = true
    · simp only [List.takeWhile_cons, hc, if_true, List.cons_append,
        List.length_cons, Nat.add_lt_add_iff_right] at h ⊢
      rw [ih h]
    · have hc2 : p c = false := by simpa using hc
      simp [List.takeWhile_cons, hc2]

theorem takeWhile_all_head_stop {p : Char → Bool} {a : Chars}
    (h : ∀ c ∈ a, p c = true) {x : Char} (hx : p x = false) (t : Chars) :
    (a ++ x :: t).takeWhile p = a := by
  rw [takeWhile_append_all h]
  simp [List.takeWhile_cons, hx]

/-- Digits produced by `digitChar` are decimal digits. -/
theorem digitChar_isDigit (d : Nat) : (digitChar d).isDigit = true := by
  unfold digitChar
  split <;> decide

theorem natCharsGo_digits (fuel : Nat) : ∀ n acc,
    (∀ c ∈ acc, c.isDigit = true) →
    ∀ c ∈ natCharsGo fuel n acc, c.isDigit = true := by
  induction fuel with
  | zero => intro n acc hacc c hc; exact hacc c hc
  | succ f ih =>
    intro n acc hacc c hc
    simp only [natCharsGo] at hc
    by_cases hn : n < 10
    · rw [if_pos hn] at hc
      rcases List.mem_cons.mp hc with rfl | hc
      · exact digitChar_isDigit n
      · exact hacc c hc
    · rw [if_neg hn] at hc
      refine ih (n / 10) (digitChar (n % 10) :: acc) ?_ c hc
      intro x hx
      rcases List.mem_cons.mp hx with rfl | hx
      · exact digitChar_isDigit (n % 10)
      · exact hacc x hx

theorem natChars_digits (n : Nat) : ∀ c ∈ natChars n, c.isDigit = true :=
  natCharsGo_digits (n + 1) n [] (by simp)

theorem natCharsGo_ne_nil (fuel : Nat) : ∀ n acc, acc ≠ [] →
    natCharsGo fuel n acc ≠ [] := by
  induction fuel with
  | zero => intro n acc h; simpa [natCharsGo] using h
  | succ f ih =>
    intro n acc h
    simp only [natCharsGo]
    by_cases hn : n < 10
    · simp [hn]
    · rw [if_neg hn]
      exact ih (n / 10) _ (by simp)

theorem natChars_ne_nil (n : Nat) : natChars n ≠ [] := by
  unfold natChars natCharsGo
  by_cases hn : n < 10
  · simp [hn]
  · rw [if_neg hn]
    exact natCharsGo_ne_nil n (n / 10) _ (by simp)

theorem isDigit_ne_of_not_digit {c : Char} (h : c.isDigit = true) {x : Char}
    (hx : x.isDigit = false) : c ≠ x := by
  intro he
  rw [he, hx] at h
  cases h

/-- A field with clean boundaries survives `str.strip()` unchanged. -/
theorem pyStrip_eq_self {f : Chars} (hne : f ≠ [])
    (hh : ∀ c, f.head? = some c → isPySpace c = false)
    (hl : ∀ c, f.getLast? = some c → isPySpace c = false) :
    pyStrip f = f := by
  cases hf : f with
  | nil => exact absurd hf hne
  | cons c t =>
    subst hf
    have h1 : isPySpace c = false := hh c rfl
    have hdrop : (c :: t).dropWhile isPySpace = c :: t := by
      simp [List.dropWhile_cons, h1]
    rw [pyStrip, hdrop]
    cases hr : (c :: t).reverse with
    | nil => exact absurd hr (by simp)
    | cons a t2 =>
      have hlast : (c :: t).getLast? = some a := by
        rw [← List.head?_reverse, hr]; rfl
      have h2 : isPySpace a = false := hl a hlast
      have hdrop2 : List.dropWhile isPySpace (a :: t2) = a :: t2 := by
        simp [List.dropWhile_cons, h2]
      rw [hdrop2, ← hr, List.reverse_reverse]

/-!  ## Digest builder (`send_summary_email`, lines 412-519)

The HTML body is assembled exactly as the source f-strings do; the literal
fragments are named so that the recovery parser's searches can be traced
through them.  -/

def opener : Chars := strC "<div class=\"job\">"
def dv : Chars := strC "</div>"
def companyLit : Chars := strC "<div class=\"company\">"
def titleLit : Chars := strC "<div class=\"title\">"
def infoLit : Chars := strC "<div class=\"info\">"
def linkDivLit : Chars := strC "<div class=\"link\">"
def payLit : Chars := strC "💰 Pay Range:"
def locLit : Chars := strC "📍 Location:"
def ahrefLit : Chars := strC "<a href=\""
def ws12 : Chars := strC "\n            "
def nlws16 : Chars := strC "\n                "
def wsCloser : Chars := strC "\n        "
def jobPre : Chars := strC "\n        "
def linkTail : Chars := strC "\">View Job Posting →</a>\n            "
def closerLit : Chars := dv ++ wsCloser ++ dv

/-- The head of the digest document (everything before `{len(jobs)}`). -/
def headA : Chars := strC "\n<html>\n<head>\n    <style>\n        body \x7b font-family: Arial, sans-serif; max-width: 800px; margin: 0 auto; padding: 20px; \x7d\n        .tier \x7b margin: 30px 0; \x7d\n        .tier-header \x7b font-size: 24px; font-weight: bold; margin-bottom: 15px; padding-bottom: 10px; border-bottom: 2px solid #ddd; \x7d\n        .tier1 \x7b color: #d4af37; \x7d /* Gold */\n        .tier2 \x7b color: #0066cc; \x7d /* Blue */\n        .tier3 \x7b color: #666; \x7d /* Gray */\n        .job \x7b margin-bottom: 20px; padding: 15px; border: 1px solid #ddd; border-radius: 5px; background: #f9f9f9; \x7d\n        .company \x7b font-weight: bold; font-size: 18px; color: #0066cc; \x7d\n        .title \x7b font-size: 16px; margin: 5px 0; \x7d\n        .info \x7b color: #666; margin: 3px 0; \x7d\n        .link \x7b margin-top: 10px; \x7d\n        a \x7b color: #0066cc; text-decoration: none; \x7d\n    </style>\n</head>\n<body>\n    <h1>🎯 LinkedIn Job Opportunities</h1>\n    <p><strong>"

/-- Between `{len(jobs)}` and the timestamp. -/
def headB : Chars := strC " jobs</strong> from public companies | Generated on "

/-- After the timestamp. -/
def headC : Chars := strC "</p>\n"

def secHdr1A : Chars :=
  strC "\n    <div class=\"tier\">\n        <div class=\"tier-header tier1\">⭐ Tier 1: Top Companies ("
def secHdr2A : Chars :=
  strC "\n    <div class=\"tier\">\n        <div class=\"tier-header tier2\">🌟 Tier 2: Great Companies ("
def secHdr3A : Chars :=
  strC "\n    <div class=\"tier\">\n        <div class=\"tier-header tier3\">✨ Tier 3: Good Companies ("
def secHdrB : Chars := strC " jobs)</div>\n"
def tierClose : Chars := strC "    </div>\n"
def footer : Chars := strC "\n</body>\n</html>\n"

/-- The inner HTML of one job card, as captured by the recovery parser's
job-block regex (between `<div class="job">` and `</div>\s*</div>`). -/
def innerOf (i : Nat) (j : Job) : Chars :=
  ws12 ++ (companyLit ++ (natChars i ++ (strC ". " ++ (j.company ++
  (dv ++ (ws12 ++ (titleLit ++ (j.title ++
  (dv ++ (ws12 ++ (infoLit ++ (payLit ++ (strC " " ++ (j.compensation ++
  (dv ++ (ws12 ++ (infoLit ++ (locLit ++ (strC " " ++ (j.location ++
  (dv ++ (ws12 ++ (linkDivLit ++ (nlws16 ++ (ahrefLit ++ (j.link ++
  linkTail))))))))))))))))))))))))))

/-- One job card (the per-job f-string of `send_summary_email`), `i` being the
1-based index within its tier section. -/
def blockOf (i : Nat) (j : Job) : Chars :=
  jobPre ++ (opener ++ (innerOf i j ++ (closerLit ++ strC "\n")))

/-- The job cards of one tier section, numbered from `i`. -/
def renderJobsFrom (i : Nat) : List Job → Chars
  | [] => []
  | j :: t => blockOf i j ++ renderJobsFrom (i + 1) t

/-- One tier section: emitted only when the tier has jobs (lines 457, 477,
497). -/
def tierSec (hdrA : Chars) (js : List Job) : Chars :=
  if js.isEmpty then []
  else hdrA ++ natChars js.length ++ secHdrB ++ renderJobsFrom 1 js ++ tierClose

def tierOf (j : Job) : Nat := get_company_tier j.company

/-- The grouping loop of lines 423-430. -/
def tier1jobs (jobs : List Job) : List Job :=
  jobs.filter (fun j => decide (tierOf j = 1))

def tier2jobs (jobs : List Job) : List Job :=
  jobs.filter (fun j => decide (tierOf j = 2))

def tier3jobs (jobs : List Job) : List Job :=
  jobs.filter (fun j => !decide (tierOf j = 1) && !decide (tierOf j = 2))

/-- The full `email_body` string of `send_summary_email`, with the
`datetime.now()` part abstracted as `ts`. -/
def emailBody (jobs : List Job) (ts : Chars) : Chars :=
  headA ++ natChars jobs.length ++ headB ++ ts ++ headC ++
  tierSec secHdr1A (tier1jobs jobs) ++
  tierSec secHdr2A (tier2jobs jobs) ++
  tierSec secHdr3A (tier3jobs jobs) ++
  footer

/-- `send_summary_email` builds and sends a document only when the job list is
non-empty (line 414). -/
def sendBody (jobs : List Job) (ts : Chars) : Option Chars :=
  if jobs.isEmpty then none else some (emailBody jobs ts)

/-!  ## Recovery parser (`parse_previous_summary_emails`, lines 315-332)  -/

def notLtC (c : Char) : Bool := c != '<'
def notQtC (c : Char) : Bool := c != '"'

/-- Match `</div>\s*</div>` at the head of `s`, returning the remainder
(`\s*` is greedy; since `</div>` starts with a non-space character no
backtracking can occur). -/
def matchCloser (s : Chars) : Option Chars :=
  if dv.isPrefixOf s then
    if dv.isPrefixOf ((s.drop 6).drop ((s.drop 6).takeWhile isPySpace).length) then
      some (((s.drop 6).drop ((s.drop 6).takeWhile isPySpace).length).drop 6)
    else none
  else none

/-- The lazy `(.*?)` capture: accumulate characters until the first position
where `</div>\s*</div>` matches. -/
def grabBlock (acc : Chars) : Chars → Option (Chars × Chars)
  | [] => none
  | c :: t =>
    match matchCloser (c :: t) with
    | some rest => some (acc.reverse, rest)
    | none => grabBlock (c :: acc) t

/-- `re.findall(r'<div class="job">(.*?)</div>\s*</div>', body, re.DOTALL)`:
scan for the opener, capture lazily to the closer, resume after the match.
The fuel argument (initialized to the string length, which each step strictly
exceeds the consumed remainder by) keeps the recursion structural. -/
def findBlocksGo : Nat → Chars → List Chars
  | 0, _ => []
  | _ + 1, [] => []
  | fuel + 1, c :: t =>
    if opener.isPrefixOf (c :: t) then
      match grabBlock [] ((c :: t).drop opener.length) with
      | some (b, rest) => b :: findBlocksGo fuel rest
      | none => []
    else findBlocksGo fuel t

def findBlocks (s : Chars) : List Chars := findBlocksGo s.length s

/-- `re.search` for a pattern of the form `lit` followed by a tail pattern
`atFn`: try each position left to right; on a literal hit where the tail
fails, continue at the next position. -/
def searchLitWith (lit : Chars) (atFn : Chars → Option Chars) :
    Chars → Option Chars
  | [] => none
  | c :: t =>
    if lit.isPrefixOf (c :: t) then
      match atFn ((c :: t).drop lit.length) with
      | some cap => some cap
      | none => searchLitWith lit atFn t
    else searchLitWith lit atFn t

/-- The optional group `(?:\d+\.\s+)?` of the company regex: greedily strip a
digit run, a dot and following whitespace, provided at least one `[^<]`
character remains for the capture (Python backtracks the group away, or backs
`\s+` off to one remaining character, otherwise). -/
def stripNumeral (content : Chars) : Chars :=
  let ds := content.takeWhile Char.isDigit
  if ds.isEmpty then content
  else
    match content.drop ds.length with
    | [] => content
    | c :: r =>
      if c = '.' then
        let w := r.takeWhile isPySpace
        if w.isEmpty then content
        else
          let rest := r.drop w.length
          if rest.isEmpty then
            if 2 ≤ w.length then w.drop (w.length - 1) else content
          else rest
      else content

/-- `<div class="company">(?:\d+\.\s+)?([^<]+)</div>` after the literal. -/
def companyAt (s : Chars) : Option Chars :=
  let content := s.takeWhile notLtC
  if content.isEmpty then none
  else if dv.isPrefixOf (s.drop content.length) then some (stripNumeral content)
  else none

/-- `([^<]+)</div>` after the literal (title regex). -/
def plainAt (s : Chars) : Option Chars :=
  let content := s.takeWhile notLtC
  if content.isEmpty then none
  else if dv.isPrefixOf (s.drop content.length) then some content
  else none

/-- `\s*([^<]+)</div>` after the literal (pay and location regexes): `\s*` is
greedy but backs off one character when everything up to `<` is whitespace. -/
def wsAt (s : Chars) : Option Chars :=
  let content := s.takeWhile notLtC
  if dv.isPrefixOf (s.drop content.length) then
    let w := content.takeWhile isPySpace
    let r := content.drop w.length
    if r.isEmpty then
      if content.isEmpty then none
      else some (content.drop (content.length - 1))
    else some r
  else none

/-- `([^"]+)">` after the literal (link regex). -/
def linkAt (s : Chars) : Option Chars :=
  let content := s.takeWhile notQtC
  if content.isEmpty then none
  else if (strC "\">").isPrefixOf (s.drop content.length) then some content
  else none

/-- The per-block field extraction of lines 317-332: a job is produced when
the company and link regexes both match, with the defaults of lines 328-331.
-/
def parseBlock (block : Chars) : Option Job :=
  match searchLitWith companyLit companyAt block,
        searchLitWith ahrefLit linkAt block with
  | some comp, some lnk =>
    some ⟨pyStrip comp,
          (((searchLitWith titleLit plainAt block).map pyStrip).getD
            (strC "Unknown Title")),
          pyStrip lnk,
          (((searchLitWith payLit wsAt block).map pyStrip).getD notSpecified),
          (((searchLitWith locLit wsAt block).map pyStrip).getD notSpecified)⟩
  | _, _ => none

/-- The whole body-parsing step of `parse_previous_summary_emails` applied to
one digest document. -/
def parseSummaryBody (body : Chars) : List Job :=
  (findBlocks body).filterMap parseBlock

/-- `u` refutes `</div>\s*</div>` within itself, whatever follows. -/
def closerRefuted (u : Chars) : Bool :=
  litRefuted dv u ||
  (dv.isPrefixOf u &&
    (decide (((u.drop 6).takeWhile isPySpace).length < (u.drop 6).length) &&
     litRefuted dv ((u.drop 6).drop ((u.drop 6).takeWhile isPySpace).length)))

def closerClear : Chars → Bool
  | [] => true
  | c :: t => closerRefuted (c :: t) && closerClear t

/-!  ## Cleanliness of field values (the hypotheses of the amended C4)  -/

def cleanChar (c : Char) : Bool :=
  c != '<' && c != '"' && c != '💰' && c != '📍'

def cleanField (f : Chars) : Bool :=
  !f.isEmpty && f.all cleanChar &&
  (match f.head? with | some c => !isPySpace c | none => false) &&
  (match f.getLast? with | some c => !isPySpace c | none => false)

def cleanJob (j : Job) : Bool :=
  cleanField j.company && cleanField j.title && cleanField j.link &&
  cleanField j.compensation && cleanField j.location

/-!  ## Lemmas about the recovery parser's scanners  -/

theorem matchCloser_rest_le {s r : Chars} (h : matchCloser s = some r) :
    r.length ≤ s.length := by
  unfold matchCloser at h
  by_cases h1 : dv.isPrefixOf s = true
  · rw [if_pos h1] at h
    by_cases h2 : dv.isPrefixOf ((s.drop 6).drop
        ((s.drop 6).takeWhile isPySpace).length) = true
    · rw [if_pos h2] at h
      have := Option.some.inj h
      subst this
      simp only [List.length_drop]
      omega
    · rw [if_neg h2] at h; cases h
  · rw [if_neg h1] at h; cases h

theorem grabBlock_rest_le (u : Chars) : ∀ acc b r,
    grabBlock acc u = some (b, r) → r.length ≤ u.length := by
  induction u with
  | nil => intro acc b r h; cases h
  | cons c t ih =>
    intro acc b r h
    simp only [grabBlock] at h
    cases hm : matchCloser (c :: t) with
    | some rest =>
      rw [hm] at h
      obtain ⟨-, h2⟩ := Prod.mk.inj (Option.some.inj h)
      exact h2 ▸ matchCloser_rest_le hm
    | none =>
      rw [hm] at h
      exact le_trans (ih (c :: acc) b r h) (by simp)

theorem findBlocksGo_stable : ∀ n, ∀ s : Chars, s.length ≤ n → ∀ f, s.length ≤ f →
    findBlocksGo f s = findBlocksGo s.length s := by
  intro n
  induction n with
  | zero =>
    intro s hs f _
    have : s = [] := List.length_eq_zero.mp (Nat.le_zero.mp hs)
    subst this
    cases f <;> rfl
  | succ n ih =>
    intro s hs f hf
    cases s with
    | nil => cases f <;> rfl
    | cons c t =>
      cases f with
      | zero => simp at hf
      | succ f2 =>
        show findBlocksGo (f2 + 1) (c :: t) = findBlocksGo (t.length + 1) (c :: t)
        simp only [findBlocksGo]
        by_cases hop : opener.isPrefixOf (c :: t) = true
        · rw [if_pos hop, if_pos hop]
          cases hg : grabBlock [] ((c :: t).drop opener.length) with
          | none => rfl
          | some br =>
            obtain ⟨b, rest⟩ := br
            dsimp only
            have hr : rest.length ≤ t.length := by
              have h1 := grabBlock_rest_le _ _ _ _ hg
              have h2 : ((c :: t).drop opener.length).length ≤ t.length := by
                have ho : opener.length = 17 := rfl
                simp only [List.length_drop, List.length_cons, ho]
                omega
              omega
            have hn : rest.length ≤ n := by
              simp only [List.length_cons] at hs; omega
            rw [ih rest hn f2 (by simp only [List.length_cons] at hf; omega),
              ih rest hn t.length hr]
        · have hop2 : opener.isPrefixOf (c :: t) = false := Bool.eq_false_iff.mpr hop
          simp only [hop2, Bool.false_eq_true, if_false]
          have hn : t.length ≤ n := by simp only [List.length_cons] at hs; omega
          rw [ih t hn f2 (by simp only [List.length_cons] at hf; omega),
            ih t hn t.length (le_refl _)]

theorem findBlocksGo_eq {s : Chars} {f : Nat} (h : s.length ≤ f) :
    findBlocksGo f s = findBlocks s :=
  findBlocksGo_stable s.length s (le_refl _) f h

theorem findBlocks_cons_skip {c : Char} {t : Chars}
    (h : opener.isPrefixOf (c :: t) = false) :
    findBlocks (c :: t) = findBlocks t := by
  show findBlocksGo (c :: t).length (c :: t) = findBlocks t
  simp only [List.length_cons, findBlocksGo, h, if_false]
  rfl

theorem findBlocks_skip_clear {L : Chars} (h : scanClear opener L = true)
    (s : Chars) : findBlocks (L ++ s) = findBlocks s := by
  induction L with
  | nil => rfl
  | cons c t ih =>
    simp only [scanClear, Bool.and_eq_true] at h
    have hnp : opener.isPrefixOf ((c :: t) ++ s) = false :=
      litRefuted_not_prefixOf h.1 s
    rw [List.cons_append] at hnp ⊢
    rw [findBlocks_cons_skip hnp]
    exact ih h.2

theorem findBlocks_at_block {X b rest : Chars}
    (h : grabBlock [] X = some (b, rest)) :
    findBlocks (opener ++ X) = b :: findBlocks rest := by
  have hshape : opener ++ X = '<' :: (strC "div class=\"job\">" ++ X) := rfl
  rw [hshape]
  show findBlocksGo ('<' :: (strC "div class=\"job\">" ++ X)).length _ = _
  simp only [List.length_cons, findBlocksGo]
  have hop : opener.isPrefixOf ('<' :: (strC "div class=\"job\">" ++ X)) = true := by
    rw [← hshape]; exact isPrefixOf_append_self opener X
  rw [hop]
  simp only [if_true]
  have hdrop : ('<' :: (strC "div class=\"job\">" ++ X)).drop opener.length = X := by
    rw [← hshape]
    exact List.drop_left opener X
  rw [hdrop, h]
  have hfuel : rest.length ≤ (strC "div class=\"job\">" ++ X).length := by
    have h1 := grabBlock_rest_le _ _ _ _ h
    simp only [List.length_append]
    omega
  dsimp only
  rw [findBlocksGo_eq hfuel]

theorem closerRefuted_matchCloser_none {u : Chars}
    (h : closerRefuted u = true) (s : Chars) : matchCloser (u ++ s) = none := by
  simp only [closerRefuted, Bool.or_eq_true, Bool.and_eq_true,
    decide_eq_true_eq] at h
  rcases h with h | ⟨h1, h2, h3⟩
  · unfold matchCloser
    rw [litRefuted_not_prefixOf h s]
    rfl
  · have h6 : (6 : Nat) ≤ u.length := length_le_of_isPrefixOf h1
    have hdr : (u ++ s).drop 6 = u.drop 6 ++ s := List.drop_append_of_le_length h6
    have hle : ((u.drop 6).takeWhile isPySpace).length ≤ (u.drop 6).length :=
      le_of_lt h2
    unfold matchCloser
    rw [isPrefixOf_extend h1 s, if_pos rfl, hdr, takeWhile_append_stop h2 s,
      List.drop_append_of_le_length hle, litRefuted_not_prefixOf h3 s]
    rfl

theorem grabBlock_skip_clear {L : Chars} (h : closerClear L = true) :
    ∀ acc s, grabBlock acc (L ++ s) = grabBlock (L.reverse ++ acc) s := by
  induction L with
  | nil => intro acc s; simp
  | cons c t ih =>
    intro acc s
    simp only [closerClear, Bool.and_eq_true] at h
    have hm : matchCloser ((c :: t) ++ s) = none :=
      closerRefuted_matchCloser_none h.1 s
    rw [List.cons_append] at hm
    show grabBlock acc (c :: (t ++ s)) = _
    simp only [grabBlock, hm]
    rw [ih h.2 (c :: acc) s]
    simp [List.append_assoc]

theorem matchCloser_at_closer (X : Chars) : matchCloser (closerLit ++ X) = some X := by
  have hshape : closerLit ++ X = dv ++ (wsCloser ++ (dv ++ X)) := by
    simp [closerLit, List.append_assoc]
  rw [hshape]
  unfold matchCloser
  rw [isPrefixOf_append_self dv _, if_pos rfl]
  have hd1 : (dv ++ (wsCloser ++ (dv ++ X))).drop 6 = wsCloser ++ (dv ++ X) :=
    List.drop_left dv _
  rw [hd1]
  have htw : (wsCloser ++ (dv ++ X)).takeWhile isPySpace = wsCloser := by
    have hdvshape : dv ++ X = '<' :: (strC "/div>" ++ X) := rfl
    rw [hdvshape]
    exact takeWhile_all_head_stop (by decide) (by decide) _
  rw [htw]
  have hd2 : (wsCloser ++ (dv ++ X)).drop wsCloser.length = dv ++ X :=
    List.drop_left wsCloser _
  rw [hd2, isPrefixOf_append_self dv X, if_pos rfl]
  have hd3 : (dv ++ X).drop 6 = X := List.drop_left dv X
  rw [hd3]

theorem grabBlock_at_closer (acc X : Chars) :
    grabBlock acc (closerLit ++ X) = some (acc.reverse, X) := by
  have hshape : closerLit ++ X = '<' :: (strC "/div>\n        </div>" ++ X) := rfl
  rw [hshape]
  simp only [grabBlock]
  rw [← hshape, matchCloser_at_closer X]

theorem litRefuted_of_head_ne {n0 : Char} {nr : Chars} {c : Char} {t : Chars}
    (h : c ≠ n0) : litRefuted (n0 :: nr) (c :: t) = true := by
  simp [litRefuted, List.zip_cons_cons, h]

theorem scanClear_of_head_ne {needle : Chars} {n0 : Char}
    (hh : needle.head? = some n0) {L : Chars} (h : ∀ c ∈ L, c ≠ n0) :
    scanClear needle L = true := by
  cases needle with
  | nil => cases hh
  | cons m0 mr =>
    have : m0 = n0 := by simpa using hh
    subst this
    induction L with
    | nil => rfl
    | cons c t ih =>
      simp only [scanClear, Bool.and_eq_true]
      exact ⟨litRefuted_of_head_ne (h c (List.mem_cons_self c t)),
        ih (fun x hx => h x (List.mem_cons_of_mem _ hx))⟩

theorem closerClear_of_ne_lt {L : Chars} (h : ∀ c ∈ L, c ≠ '<') :
    closerClear L = true := by
  induction L with
  | nil => rfl
  | cons c t ih =>
    simp only [closerClear, Bool.and_eq_true]
    refine ⟨?_, ih (fun x hx => h x (List.mem_cons_of_mem _ hx))⟩
    simp only [closerRefuted, Bool.or_eq_true]
    exact Or.inl (litRefuted_of_head_ne (h c (List.mem_cons_self c t)))

theorem searchLitWith_cons_skip {lit : Chars} {atFn : Chars → Option Chars}
    {c : Char} {t : Chars} (h : lit.isPrefixOf (c :: t) = false) :
    searchLitWith lit atFn (c :: t) = searchLitWith lit atFn t := by
  simp [searchLitWith, h]

theorem searchLitWith_skip_clear {lit : Chars} {atFn : Chars → Option Chars}
    {L : Chars} (h : scanClear lit L = true) (s : Chars) :
    searchLitWith lit atFn (L ++ s) = searchLitWith lit atFn s := by
  induction L with
  | nil => rfl
  | cons c t ih =>
    simp only [scanClear, Bool.and_eq_true] at h
    have hnp : lit.isPrefixOf ((c :: t) ++ s) = false :=
      litRefuted_not_prefixOf h.1 s
    rw [List.cons_append] at hnp ⊢
    rw [searchLitWith_cons_skip hnp]
    exact ih h.2

theorem searchLitWith_hit {lit : Chars} {atFn : Chars → Option Chars}
    (hne : lit ≠ []) {s : Chars} {cap : Chars} (h : atFn s = some cap) :
    searchLitWith lit atFn (lit ++ s) = some cap := by
  cases hl : lit with
  | nil => exact absurd hl hne
  | cons l0 lt =>
    rw [← hl]
    have hshape : lit ++ s = l0 :: (lt ++ s) := by rw [hl]; rfl
    rw [hshape]
    simp only [searchLitWith]
    have hop : lit.isPrefixOf (l0 :: (lt ++ s)) = true := by
      rw [← hshape]; exact isPrefixOf_append_self lit s
    rw [hop]
    simp only [if_true]
    have hdrop : (l0 :: (lt ++ s)).drop lit.length = s := by
      rw [← hshape]; exact List.drop_left lit s
    rw [hdrop, h]

/-!  ## Field extraction on a clean rendered job card  -/

theorem cleanChar_spec {c : Char} (h : cleanChar c = true) :
    c ≠ '<' ∧ c ≠ '"' ∧ c ≠ '💰' ∧ c ≠ '📍' := by
  simp only [cleanChar, Bool.and_eq_true, bne_iff_ne, ne_eq] at h
  exact ⟨h.1.1.1, h.1.1.2, h.1.2, h.2⟩

theorem cleanField_spec {f : Chars} (h : cleanField f = true) :
    f ≠ [] ∧ (∀ c ∈ f, cleanChar c = true) ∧
    (∀ c, f.head? = some c → isPySpace c = false) ∧
    (∀ c, f.getLast? = some c → isPySpace c = false) := by
  simp only [cleanField, Bool.and_eq_true] at h
  obtain ⟨⟨⟨h1, h2⟩, h3⟩, h4⟩ := h
  refine ⟨by simpa using h1, by simpa [List.all_eq_true] using h2, ?_, ?_⟩
  · intro c hc
    rw [hc] at h3
    simpa using h3
  · intro c hc
    rw [hc] at h4
    simpa using h4

theorem cleanJob_spec {j : Job} (h : cleanJob j = true) :
    cleanField j.company = true ∧ cleanField j.title = true ∧
    cleanField j.link = true ∧ cleanField j.compensation = true ∧
    cleanField j.location = true := by
  simp only [cleanJob, Bool.and_eq_true] at h
  exact ⟨h.1.1.1.1, h.1.1.1.2, h.1.1.2, h.1.2, h.2⟩

theorem pyStrip_cleanField {f : Chars} (h : cleanField f = true) :
    pyStrip f = f := by
  obtain ⟨hne, -, hh, hl⟩ := cleanField_spec h
  exact pyStrip_eq_self hne hh hl

theorem cleanField_ne_lt {f : Chars} (h : cleanField f = true) :
    ∀ c ∈ f, c ≠ '<' :=
  fun c hc => (cleanChar_spec ((cleanField_spec h).2.1 c hc)).1

theorem cleanField_ne_qt {f : Chars} (h : cleanField f = true) :
    ∀ c ∈ f, c ≠ '"' :=
  fun c hc => (cleanChar_spec ((cleanField_spec h).2.1 c hc)).2.1

theorem notLtC_eq_true {c : Char} (h : c ≠ '<') : notLtC c = true := by
  simp [notLtC, h]

theorem notQtC_eq_true {c : Char} (h : c ≠ '"') : notQtC c = true := by
  simp [notQtC, h]

theorem notLtC_of_isDigit {c : Char} (h : c.isDigit = true) : notLtC c = true :=
  notLtC_eq_true (isDigit_ne_of_not_digit h (by decide))

theorem cleanField_head_not_space {f : Chars} (h : cleanField f = true) :
    f.takeWhile isPySpace = [] := by
  obtain ⟨hne, -, hh, -⟩ := cleanField_spec h
  cases hf : f with
  | nil => exact absurd hf hne
  | cons c t =>
    have := hh c (by rw [hf]; rfl)
    simp [List.takeWhile_cons, this]

theorem natChars_isEmpty_false (i : Nat) {X : Chars} :
    (natChars i ++ X).isEmpty = false := by
  cases hn : natChars i with
  | nil => exact absurd hn (natChars_ne_nil i)
  | cons a t => rfl

/-- The `(?:\d+\.\s+)?` group strips exactly the rendered `"{i}. "` numeral. -/
theorem stripNumeral_clean {f : Chars} (hne : f ≠ [])
    (hhead : f.takeWhile isPySpace = []) (i : Nat) :
    stripNumeral (natChars i ++ (strC ". " ++ f)) = f := by
  have hsh : natChars i ++ (strC ". " ++ f) = natChars i ++ '.' :: ' ' :: f := rfl
  rw [hsh]
  have hds : (natChars i ++ '.' :: ' ' :: f).takeWhile Char.isDigit =
      natChars i :=
    takeWhile_all_head_stop (natChars_digits i) (by decide) _
  have hdsne : (natChars i).isEmpty = false := by
    cases hn : natChars i with
    | nil => exact absurd hn (natChars_ne_nil i)
    | cons a t => rfl
  have hdrop : (natChars i ++ '.' :: ' ' :: f).drop (natChars i).length =
      '.' :: ' ' :: f := List.drop_left _ _
  have hw : (' ' :: f).takeWhile isPySpace = [' '] := by
    simp only [List.takeWhile_cons, hhead]
    decide
  simp only [stripNumeral, hds, hdsne, Bool.false_eq_true, if_false, hdrop,
    eq_self_iff_true, if_true, hw, List.isEmpty_cons, List.length_cons,
    List.length_nil, List.drop_succ_cons, List.drop_zero]
  cases hf : f with
  | nil => exact absurd hf hne
  | cons c t => rfl

theorem companyAt_clean {f : Chars} (hne : f ≠ [])
    (hallLt : ∀ c ∈ f, c ≠ '<') (hhead : f.takeWhile isPySpace = [])
    (i : Nat) (R : Chars) :
    companyAt (natChars i ++ (strC ". " ++ (f ++ (dv ++ R)))) = some f := by
  have hA : ∀ c ∈ natChars i ++ (strC ". " ++ f), notLtC c = true := by
    intro c hc
    rcases List.mem_append.mp hc with hc | hc
    · exact notLtC_of_isDigit (natChars_digits i c hc)
    · rcases List.mem_append.mp hc with hc | hc
      · exact (by decide : ∀ x ∈ strC ". ", notLtC x = true) c hc
      · exact notLtC_eq_true (hallLt c hc)
  have hdvR : dv ++ R = '<' :: (strC "/div>" ++ R) := rfl
  have hshape : natChars i ++ (strC ". " ++ (f ++ (dv ++ R))) =
      (natChars i ++ (strC ". " ++ f)) ++ ('<' :: (strC "/div>" ++ R)) := by
    rw [← hdvR]
    simp [List.append_assoc]
  have hstop : (natChars i ++ (strC ". " ++ (f ++ (dv ++ R)))).takeWhile notLtC =
      natChars i ++ (strC ". " ++ f) := by
    rw [hshape]
    exact takeWhile_all_head_stop hA (by decide) _
  have hdrop : (natChars i ++ (strC ". " ++ (f ++ (dv ++ R)))).drop
      (natChars i ++ (strC ". " ++ f)).length = dv ++ R := by
    rw [hshape, List.drop_left, ← hdvR]
  simp only [companyAt, hstop, natChars_isEmpty_false, Bool.false_eq_true,
    if_false, hdrop, isPrefixOf_append_self, eq_self_iff_true, if_true,
    stripNumeral_clean hne hhead i]

theorem plainAt_clean {f : Chars} (hne : f ≠ [])
    (hallLt : ∀ c ∈ f, c ≠ '<') (R : Chars) :
    plainAt (f ++ (dv ++ R)) = some f := by
  have hdvR : dv ++ R = '<' :: (strC "/div>" ++ R) := rfl
  have hstop : (f ++ (dv ++ R)).takeWhile notLtC = f := by
    rw [hdvR]
    exact takeWhile_all_head_stop
      (fun c hc => notLtC_eq_true (hallLt c hc)) (by decide) _
  have hie : f.isEmpty = false := by
    cases hf : f with
    | nil => exact absurd hf hne
    | cons a t => rfl
  simp only [plainAt, hstop, hie, Bool.false_eq_true, if_false,
    List.drop_left, isPrefixOf_append_self, eq_self_iff_true, if_true]

theorem wsAt_clean {f : Chars} (hne : f ≠ [])
    (hallLt : ∀ c ∈ f, c ≠ '<') (hhead : f.takeWhile isPySpace = [])
    (R : Chars) :
    wsAt (strC " " ++ (f ++ (dv ++ R))) = some f := by
  have hsh : strC " " ++ (f ++ (dv ++ R)) = (' ' :: f) ++ (dv ++ R) := rfl
  have hdvR : dv ++ R = '<' :: (strC "/div>" ++ R) := rfl
  have hA : ∀ c ∈ ' ' :: f, notLtC c = true := by
    intro c hc
    rcases List.mem_cons.mp hc with rfl | hc
    · decide
    · exact notLtC_eq_true (hallLt c hc)
  have hstop : ((' ' :: f) ++ (dv ++ R)).takeWhile notLtC = ' ' :: f := by
    rw [hdvR]
    exact takeWhile_all_head_stop hA (by decide) _
  have hw : (' ' :: f).takeWhile isPySpace = [' '] := by
    simp only [List.takeWhile_cons, hhead]
    decide
  have hie : f.isEmpty = false := by
    cases hf : f with
    | nil => exact absurd hf hne
    | cons a t => rfl
  rw [hsh]
  simp only [wsAt, hstop, List.drop_left, isPrefixOf_append_self,
    eq_self_iff_true, if_true, hw]
  simp only [List.length_cons, List.length_nil, List.drop_succ_cons,
    List.drop_zero, hie, Bool.false_eq_true, if_false]

theorem linkAt_clean {f : Chars} (hne : f ≠ [])
    (hallQt : ∀ c ∈ f, c ≠ '"') :
    linkAt (f ++ linkTail) = some f := by
  have hlt : linkTail = '"' :: strC ">View Job Posting →</a>\n            " := rfl
  have hstop : (f ++ linkTail).takeWhile notQtC = f := by
    rw [hlt]
    exact takeWhile_all_head_stop
      (fun c hc => notQtC_eq_true (hallQt c hc)) (by decide) _
  have hie : f.isEmpty = false := by
    cases hf : f with
    | nil => exact absurd hf hne
    | cons a t => rfl
  simp only [linkAt, hstop, hie, Bool.false_eq_true, if_false, List.drop_left]
  rw [if_pos (by decide)]

/-!  ## The five field searches on one rendered job card  -/

theorem scanClear_digits (lit : Chars) (n0 : Char) (hh : lit.head? = some n0)
    (h0 : n0.isDigit = false) (i : Nat) : scanClear lit (natChars i) = true :=
  scanClear_of_head_ne hh
    (fun c hc => isDigit_ne_of_not_digit (natChars_digits i c hc) h0)

theorem scanClear_cleanField (lit : Chars) (n0 : Char) (hh : lit.head? = some n0)
    (h0 : cleanChar n0 = false) {f : Chars} (hf : cleanField f = true) :
    scanClear lit f = true := by
  refine scanClear_of_head_ne hh (fun c hc => fun he => ?_)
  have := (cleanField_spec hf).2.1 c hc
  rw [he, h0] at this
  cases this

theorem closerClear_cleanField {f : Chars} (hf : cleanField f = true) :
    closerClear f = true :=
  closerClear_of_ne_lt (cleanField_ne_lt hf)

theorem closerClear_natChars (i : Nat) : closerClear (natChars i) = true :=
  closerClear_of_ne_lt
    (fun c hc => isDigit_ne_of_not_digit (natChars_digits i c hc) (by decide))

theorem searchCompany_inner {j : Job} (hc : cleanJob j = true) (i : Nat) :
    searchLitWith companyLit companyAt (innerOf i j) = some j.company := by
  have h1 := (cleanJob_spec hc).1
  obtain ⟨hne, -, -, -⟩ := cleanField_spec h1
  unfold innerOf
  rw [searchLitWith_skip_clear (by decide : scanClear companyLit ws12 = true)]
  exact searchLitWith_hit (by decide)
    (companyAt_clean hne (cleanField_ne_lt h1) (cleanField_head_not_space h1) i _)

theorem searchTitle_inner {j : Job} (hc : cleanJob j = true) (i : Nat) :
    searchLitWith titleLit plainAt (innerOf i j) = some j.title := by
  obtain ⟨h1, h2, -, -, -⟩ := cleanJob_spec hc
  obtain ⟨hne2, -, -, -⟩ := cleanField_spec h2
  unfold innerOf
  rw [searchLitWith_skip_clear (by decide : scanClear titleLit ws12 = true),
    searchLitWith_skip_clear (by decide : scanClear titleLit companyLit = true),
    searchLitWith_skip_clear (scanClear_digits titleLit '<' rfl (by decide) i),
    searchLitWith_skip_clear (by decide : scanClear titleLit (strC ". ") = true),
    searchLitWith_skip_clear (scanClear_cleanField titleLit '<' rfl (by decide) h1),
    searchLitWith_skip_clear (by decide : scanClear titleLit dv = true),
    searchLitWith_skip_clear (by decide : scanClear titleLit ws12 = true)]
  exact searchLitWith_hit (by decide) (plainAt_clean hne2 (cleanField_ne_lt h2) _)

theorem searchPay_inner {j : Job} (hc : cleanJob j = true) (i : Nat) :
    searchLitWith payLit wsAt (innerOf i j) = some j.compensation := by
  obtain ⟨h1, h2, -, h4, -⟩ := cleanJob_spec hc
  obtain ⟨hne4, -, -, -⟩ := cleanField_spec h4
  unfold innerOf
  rw [searchLitWith_skip_clear (by decide : scanClear payLit ws12 = true),
    searchLitWith_skip_clear (by decide : scanClear payLit companyLit = true),
    searchLitWith_skip_clear (scanClear_digits payLit '💰' rfl (by decide) i),
    searchLitWith_skip_clear (by decide : scanClear payLit (strC ". ") = true),
    searchLitWith_skip_clear (scanClear_cleanField payLit '💰' rfl (by decide) h1),
    searchLitWith_skip_clear (by decide : scanClear payLit dv = true),
    searchLitWith_skip_clear (by decide : scanClear payLit ws12 = true),
    searchLitWith_skip_clear (by decide : scanClear payLit titleLit = true),
    searchLitWith_skip_clear (scanClear_cleanField payLit '💰' rfl (by decide) h2),
    searchLitWith_skip_clear (by decide : scanClear payLit dv = true),
    searchLitWith_skip_clear (by decide : scanClear payLit ws12 = true),
    searchLitWith_skip_clear (by decide : scanClear payLit infoLit = true)]
  exact searchLitWith_hit (by decide)
    (wsAt_clean hne4 (cleanField_ne_lt h4) (cleanField_head_not_space h4) _)

theorem searchLoc_inner {j : Job} (hc : cleanJob j = true) (i : Nat) :
    searchLitWith locLit wsAt (innerOf i j) = some j.location := by
  obtain ⟨h1, h2, -, h4, h5⟩ := cleanJob_spec hc
  obtain ⟨hne5, -, -, -⟩ := cleanField_spec h5
  unfold innerOf
  rw [searchLitWith_skip_clear (by decide : scanClear locLit ws12 = true),
    searchLitWith_skip_clear (by decide : scanClear locLit companyLit = true),
    searchLitWith_skip_clear (scanClear_digits locLit '📍' rfl (by decide) i),
    searchLitWith_skip_clear (by decide : scanClear locLit (strC ". ") = true),
    searchLitWith_skip_clear (scanClear_cleanField locLit '📍' rfl (by decide) h1),
    searchLitWith_skip_clear (by decide : scanClear locLit dv = true),
    searchLitWith_skip_clear (by decide : scanClear locLit ws12 = true),
    searchLitWith_skip_clear (by decide : scanClear locLit titleLit = true),
    searchLitWith_skip_clear (scanClear_cleanField locLit '📍' rfl (by decide) h2),
    searchLitWith_skip_clear (by decide : scanClear locLit dv = true),
    searchLitWith_skip_clear (by decide : scanClear locLit ws12 = true),
    searchLitWith_skip_clear (by decide : scanClear locLit infoLit = true),
    searchLitWith_skip_clear (by decide : scanClear locLit payLit = true),
    searchLitWith_skip_clear (by decide : scanClear locLit (strC " ") = true),
    searchLitWith_skip_clear (scanClear_cleanField locLit '📍' rfl (by decide) h4),
    searchLitWith_skip_clear (by decide : scanClear locLit dv = true),
    searchLitWith_skip_clear (by decide : scanClear locLit ws12 = true),
    searchLitWith_skip_clear (by decide : scanClear locLit infoLit = true)]
  exact searchLitWith_hit (by decide)
    (wsAt_clean hne5 (cleanField_ne_lt h5) (cleanField_head_not_space h5) _)

theorem searchLink_inner {j : Job} (hc : cleanJob j = true) (i : Nat) :
    searchLitWith ahrefLit linkAt (innerOf i j) = some j.link := by
  obtain ⟨h1, h2, h3, h4, h5⟩ := cleanJob_spec hc
  obtain ⟨hne3, -, -, -⟩ := cleanField_spec h3
  unfold innerOf
  rw [searchLitWith_skip_clear (by decide : scanClear ahrefLit ws12 = true),
    searchLitWith_skip_clear (by decide : scanClear ahrefLit companyLit = true),
    searchLitWith_skip_clear (scanClear_digits ahrefLit '<' rfl (by decide) i),
    searchLitWith_skip_clear (by decide : scanClear ahrefLit (strC ". ") = true),
    searchLitWith_skip_clear (scanClear_cleanField ahrefLit '<' rfl (by decide) h1),
    searchLitWith_skip_clear (by decide : scanClear ahrefLit dv = true),
    searchLitWith_skip_clear (by decide : scanClear ahrefLit ws12 = true),
    searchLitWith_skip_clear (by decide : scanClear ahrefLit titleLit = true),
    searchLitWith_skip_clear (scanClear_cleanField ahrefLit '<' rfl (by decide) h2),
    searchLitWith_skip_clear (by decide : scanClear ahrefLit dv = true),
    searchLitWith_skip_clear (by decide : scanClear ahrefLit ws12 = true),
    searchLitWith_skip_clear (by decide : scanClear ahrefLit infoLit = true),
    searchLitWith_skip_clear (by decide : scanClear ahrefLit payLit = true),
    searchLitWith_skip_clear (by decide : scanClear ahrefLit (strC " ") = true),
    searchLitWith_skip_clear (scanClear_cleanField ahrefLit '<' rfl (by decide) h4),
    searchLitWith_skip_clear (by decide : scanClear ahrefLit dv = true),
    searchLitWith_skip_clear (by decide : scanClear ahrefLit ws12 = true),
    searchLitWith_skip_clear (by decide : scanClear ahrefLit infoLit = true),
    searchLitWith_skip_clear (by decide : scanClear ahrefLit locLit = true),
    searchLitWith_skip_clear (by decide : scanClear ahrefLit (strC " ") = true),
    searchLitWith_skip_clear (scanClear_cleanField ahrefLit '<' rfl (by decide) h5),
    searchLitWith_skip_clear (by decide : scanClear ahrefLit dv = true),
    searchLitWith_skip_clear (by decide : scanClear ahrefLit ws12 = true),
    searchLitWith_skip_clear (by decide : scanClear ahrefLit linkDivLit = true),
    searchLitWith_skip_clear (by decide : scanClear ahrefLit nlws16 = true)]
  exact searchLitWith_hit (by decide) (linkAt_clean hne3 (cleanField_ne_qt h3))

/-- A clean job card parses back to exactly its job. -/
theorem parseBlock_inner {j : Job} (hc : cleanJob j = true) (i : Nat) :
    parseBlock (innerOf i j) = some j := by
  obtain ⟨h1, h2, h3, h4, h5⟩ := cleanJob_spec hc
  simp only [parseBlock, searchCompany_inner hc i, searchTitle_inner hc i,
    searchPay_inner hc i, searchLoc_inner hc i, searchLink_inner hc i,
    Option.map_some', Option.getD_some, pyStrip_cleanField h1,
    pyStrip_cleanField h2, pyStrip_cleanField h3, pyStrip_cleanField h4,
    pyStrip_cleanField h5]

/-!  ## The job-block capture over a rendered document  -/

theorem grabBlock_skip3 {A B C : Chars} (h : closerClear (A ++ (B ++ C)) = true)
    (acc s : Chars) :
    grabBlock acc (A ++ (B ++ (C ++ s))) =
      grabBlock ((A ++ (B ++ C)).reverse ++ acc) s := by
  have := grabBlock_skip_clear h acc s
  simpa [List.append_assoc] using this

theorem grabBlock_inner {j : Job} (hc : cleanJob j = true) (i : Nat) (X : Chars) :
    grabBlock [] (innerOf i j ++ (closerLit ++ X)) = some (innerOf i j, X) := by
  obtain ⟨h1, h2, h3, h4, h5⟩ := cleanJob_spec hc
  unfold innerOf
  simp only [List.append_assoc]
  rw [grabBlock_skip_clear (by decide : closerClear ws12 = true),
      grabBlock_skip_clear (by decide : closerClear companyLit = true),
      grabBlock_skip_clear (closerClear_natChars i),
      grabBlock_skip_clear (by decide : closerClear (strC ". ") = true),
      grabBlock_skip_clear (closerClear_cleanField h1),
      grabBlock_skip3 (by decide : closerClear (dv ++ (ws12 ++ titleLit)) = true),
      grabBlock_skip_clear (closerClear_cleanField h2),
      grabBlock_skip3 (by decide : closerClear (dv ++ (ws12 ++ infoLit)) = true),
      grabBlock_skip_clear (by decide : closerClear payLit = true),
      grabBlock_skip_clear (by decide : closerClear (strC " ") = true),
      grabBlock_skip_clear (closerClear_cleanField h4),
      grabBlock_skip3 (by decide : closerClear (dv ++ (ws12 ++ infoLit)) = true),
      grabBlock_skip_clear (by decide : closerClear locLit = true),
      grabBlock_skip_clear (by decide : closerClear (strC " ") = true),
      grabBlock_skip_clear (closerClear_cleanField h5),
      grabBlock_skip3 (by decide : closerClear (dv ++ (ws12 ++ linkDivLit)) = true),
      grabBlock_skip_clear (by decide : closerClear nlws16 = true),
      grabBlock_skip_clear (by decide : closerClear ahrefLit = true),
      grabBlock_skip_clear (closerClear_cleanField h3),
      grabBlock_skip_clear (by decide : closerClear linkTail = true),
      grabBlock_at_closer]
  simp [List.reverse_append, List.reverse_reverse, List.append_assoc]

theorem findBlocks_blockOf {j : Job} (hc : cleanJob j = true) (i : Nat)
    (s : Chars) :
    findBlocks (blockOf i j ++ s) = innerOf i j :: findBlocks s := by
  unfold blockOf
  simp only [List.append_assoc]
  rw [findBlocks_skip_clear (by decide : scanClear opener jobPre = true),
      findBlocks_at_block (grabBlock_inner hc i (strC "\n" ++ s)),
      findBlocks_skip_clear (by decide : scanClear opener (strC "\n") = true)]

/-- The inner texts of the job cards of one tier section, numbered from `i`. -/
def blocksInner (i : Nat) : List Job → List Chars
  | [] => []
  | j :: t => innerOf i j :: blocksInner (i + 1) t

theorem findBlocks_renderJobs {js : List Job}
    (hcl : ∀ j ∈ js, cleanJob j = true) : ∀ i s,
    findBlocks (renderJobsFrom i js ++ s) = blocksInner i js ++ findBlocks s := by
  induction js with
  | nil => intro i s; simp [renderJobsFrom, blocksInner]
  | cons j t ih =>
    intro i s
    simp only [renderJobsFrom, blocksInner, List.append_assoc]
    rw [findBlocks_blockOf (hcl j (List.mem_cons_self j t)) i,
      ih (fun x hx => hcl x (List.mem_cons_of_mem _ hx)) (i + 1) s]
    rfl

theorem scanClear_opener_digits (i : Nat) :
    scanClear opener (natChars i) = true :=
  scanClear_digits opener '<' rfl (by decide) i

theorem findBlocks_tierSec {js : List Job}
    (hcl : ∀ j ∈ js, cleanJob j = true) {hdrA : Chars}
    (hhdr : scanClear opener hdrA = true) (s : Chars) :
    findBlocks (tierSec hdrA js ++ s) = blocksInner 1 js ++ findBlocks s := by
  cases js with
  | nil => simp [tierSec, blocksInner]
  | cons j t =>
    simp only [tierSec, List.isEmpty_cons, Bool.false_eq_true, if_false,
      List.append_assoc]
    rw [findBlocks_skip_clear hhdr,
      findBlocks_skip_clear (scanClear_opener_digits (j :: t).length),
      findBlocks_skip_clear (by decide : scanClear opener secHdrB = true),
      findBlocks_renderJobs hcl 1 (tierClose ++ s),
      findBlocks_skip_clear (by decide : scanClear opener tierClose = true)]

set_option maxRecDepth 8000 in
theorem findBlocks_emailBody {jobs : List Job}
    (hcl : ∀ j ∈ jobs, cleanJob j = true) {ts : Chars}
    (hts : ∀ c ∈ ts, c ≠ '<') :
    findBlocks (emailBody jobs ts) =
      blocksInner 1 (tier1jobs jobs) ++ (blocksInner 1 (tier2jobs jobs) ++
        blocksInner 1 (tier3jobs jobs)) := by
  have hcl1 : ∀ j ∈ tier1jobs jobs, cleanJob j = true :=
    fun j hj => hcl j (List.mem_of_mem_filter hj)
  have hcl2 : ∀ j ∈ tier2jobs jobs, cleanJob j = true :=
    fun j hj => hcl j (List.mem_of_mem_filter hj)
  have hcl3 : ∀ j ∈ tier3jobs jobs, cleanJob j = true :=
    fun j hj => hcl j (List.mem_of_mem_filter hj)
  have hfoot : findBlocks footer = [] := by decide
  unfold emailBody
  simp only [List.append_assoc]
  rw [findBlocks_skip_clear (by decide : scanClear opener headA = true),
    findBlocks_skip_clear (scanClear_opener_digits jobs.length),
    findBlocks_skip_clear (by decide : scanClear opener headB = true),
    findBlocks_skip_clear (@scanClear_of_head_ne opener '<' rfl ts hts),
    findBlocks_skip_clear (by decide : scanClear opener headC = true),
    findBlocks_tierSec hcl1 (by decide : scanClear opener secHdr1A = true),
    findBlocks_tierSec hcl2 (by decide : scanClear opener secHdr2A = true),
    findBlocks_tierSec hcl3 (by decide : scanClear opener secHdr3A = true),
    hfoot]
  simp

theorem filterMap_blocksInner {js : List Job}
    (hcl : ∀ j ∈ js, cleanJob j = true) : ∀ i,
    (blocksInner i js).filterMap parseBlock = js := by
  induction js with
  | nil => intro i; rfl
  | cons j t ih =>
    intro i
    simp only [blocksInner, List.filterMap_cons,
      parseBlock_inner (hcl j (List.mem_cons_self j t)) i]
    rw [ih (fun x hx => hcl x (List.mem_cons_of_mem _ hx)) (i + 1)]

/-- A concrete unclean listing: its company name contains `<`. -/
def badJob : Job :=
  ⟨strC "a<b", strC "T", strC "https://x", strC "c", strC "l"⟩

set_option maxRecDepth 8000 in
/-- Counterexample to claim C4 as stated: for the listing with company
`"a<b"`, rendering the digest and re-parsing it loses the listing entirely
(the company regex `([^<]+)</div>` cannot match), so the round trip does not
reproduce the listings for every list of job listings. -/
theorem digest_roundtrip_fails :
    parseSummaryBody (emailBody [badJob] (strC "2026-01-01 00:00")) = [] ∧
    [badJob] ≠ ([] : List Job) := by
  exact ⟨by decide, by decide⟩

/-- Claim C4, amended: for a non-empty list of listings whose field values are
clean (non-empty; free of `<`, `"`, `💰` and `📍`; no leading or trailing
whitespace) and a timestamp without `<`, the digest builder does render a
document, and re-parsing it with the recovery parser reproduces exactly the
listings used to build it, grouped as tier-1 then tier-2 then tier-3 (a
permutation of the input with all five field values intact). -/
theorem digest_roundtrip (jobs : List Job) (ts : Chars) (hne : jobs ≠ [])
    (hcl : ∀ j ∈ jobs, cleanJob j = true) (hts : ∀ c ∈ ts, c ≠ '<') :
    sendBody jobs ts = some (emailBody jobs ts) ∧
    parseSummaryBody (emailBody jobs ts) =
      tier1jobs jobs ++ tier2jobs jobs ++ tier3jobs jobs ∧
    List.Perm (tier1jobs jobs ++ tier2jobs jobs ++ tier3jobs jobs) jobs := by
  have hcl1 : ∀ j ∈ tier1jobs jobs, cleanJob j = true :=
    fun j hj => hcl j (List.mem_of_mem_filter hj)
  have hcl2 : ∀ j ∈ tier2jobs jobs, cleanJob j = true :=
    fun j hj => hcl j (List.mem_of_mem_filter hj)
  have hcl3 : ∀ j ∈ tier3jobs jobs, cleanJob j = true :=
    fun j hj => hcl j (List.mem_of_mem_filter hj)
  refine ⟨?_, ?_, ?_⟩
  · unfold sendBody
    cases hj : jobs with
    | nil => exact absurd hj hne
    | cons a t => rfl
  · unfold parseSummaryBody
    rw [findBlocks_emailBody hcl hts, List.filterMap_append,
      List.filterMap_append, filterMap_blocksInner hcl1 1,
      filterMap_blocksInner hcl2 1, filterMap_blocksInner hcl3 1,
      List.append_assoc]
  · have h2eq : (jobs.filter (fun j => !decide (tierOf j = 1))).filter
        (fun j => decide (tierOf j = 2)) = tier2jobs jobs := by
      rw [List.filter_filter]
      unfold tier2jobs
      apply List.filter_congr
      intro a _
      by_cases h2 : tierOf a = 2
      · have h1 : ¬ tierOf a = 1 := by rw [h2]; omega
        simp [h1, h2]
      · simp [h2]
    have h3eq : (jobs.filter (fun j => !decide (tierOf j = 1))).filter
        (fun j => !decide (tierOf j = 2)) = tier3jobs jobs := by
      rw [List.filter_filter]
      unfold tier3jobs
      apply List.filter_congr
      intro a _
      exact Bool.and_comm _ _
    have inner2 : List.Perm (tier2jobs jobs ++ tier3jobs jobs)
        (jobs.filter (fun j => !decide (tierOf j = 1))) := by
      rw [← h2eq, ← h3eq]
      exact List.filter_append_perm _ _
    have outer : List.Perm
        (tier1jobs jobs ++ (tier2jobs jobs ++ tier3jobs jobs)) jobs :=
      List.Perm.trans (List.Perm.append_left _ inner2)
        (List.filter_append_perm _ _)
    simpa [List.append_assoc] using outer

/-- Witness for the amended C4 theorem at a concrete clean listing. -/
theorem digest_roundtrip_witness :
    parseSummaryBody (emailBody [sampleJob] (strC "2026-01-01 00:00")) =
      tier1jobs [sampleJob] ++ tier2jobs [sampleJob] ++ tier3jobs [sampleJob] :=
  (digest_roundtrip [sampleJob] (strC "2026-01-01 00:00") (by decide)
    (by decide) (by decide)).2.1

end JobFilter
